import Mathlib

/-!
Verification of the advanced PowerPoint slide-composition engine
(`document_generator/generators/powerpoint_advanced_generator.py`).

The development shallowly embeds the engine: Python strings are Lean
`String`s (sequences of Unicode scalar values), `json.loads`/`json.dumps`
are modelled by an executable parser and printer over a `Json` value type,
pptx objects (slides, shapes, text frames, tables, layouts) are modelled
structurally at the granularity the generator manipulates them, and Python
exceptions are modelled with `Except`.  All definitions are written with
structural recursion (fuel where needed) so that every function evaluates
inside the kernel.
-/

/-! ### Characters and Python-style string helpers -/

def quoteC : Char := Char.ofNat 34

def aposC : Char := Char.ofNat 39

def bslashC : Char := Char.ofNat 92

def lbraceC : Char := Char.ofNat 123

def rbraceC : Char := Char.ofNat 125

/-- Left typographic double quote U+201C. -/
def ldquoC : Char := Char.ofNat 8220

/-- Right typographic double quote U+201D. -/
def rdquoC : Char := Char.ofNat 8221

/-- Left typographic single quote U+2018. -/
def lsquoC : Char := Char.ofNat 8216

/-- Right typographic single quote U+2019. -/
def rsquoC : Char := Char.ofNat 8217

/-- The quote normalization of `parse_slide_metadata`: the two chained
`str.replace` calls rewrite each typographic double quote to a straight
double quote and each typographic single quote to a straight single quote;
character-wise this is a `map`. -/
def normChar (c : Char) : Char :=
  if c = ldquoC ∨ c = rdquoC then quoteC
  else if c = lsquoC ∨ c = rsquoC then aposC
  else c

def normalizeQuotes (s : String) : String :=
  String.mk (s.data.map normChar)

/-- ASCII whitespace stripped by Python `str.strip()` (the model restricts
attention to the ASCII whitespace characters). -/
def isPyWs (c : Char) : Bool :=
  c = ' ' || c = Char.ofNat 9 || c = Char.ofNat 10 || c = Char.ofNat 13 ||
  c = Char.ofNat 11 || c = Char.ofNat 12

/-- Python `str.strip()`. -/
def pyStrip (s : String) : String :=
  String.mk (((s.data.dropWhile isPyWs).reverse.dropWhile isPyWs).reverse)

/-- Does `cs` contain `pat` as a contiguous sublist?  Models Python
`pat in s` on strings. -/
def hasSub (pat : List Char) : List Char → Bool
  | [] => pat.isEmpty
  | c :: rest => pat.isPrefixOf (c :: rest) || hasSub pat rest

def strContains (s pat : String) : Bool :=
  hasSub pat.data s.data

/-- Python `str.replace` (all non-overlapping occurrences, left to right),
with fuel for structural recursion; the fuel is set to the input length,
which suffices because each step consumes at least one character.  (Never
invoked with an empty pattern in this model.) -/
def replFuel (pat rep : List Char) : Nat → List Char → List Char
  | 0, cs => cs
  | f + 1, cs =>
    match cs with
    | [] => []
    | c :: rest =>
      if pat.isPrefixOf cs && !pat.isEmpty then
        rep ++ replFuel pat rep f (cs.drop pat.length)
      else
        c :: replFuel pat rep f rest

def pyReplace (s pat rep : String) : String :=
  String.mk (replFuel pat.data rep.data s.data.length s.data)

/-- Code-point lexicographic comparison, Python's `<=` on `str`. -/
def lexLe : List Char → List Char → Bool
  | [], _ => true
  | _ :: _, [] => false
  | a :: as, b :: bs =>
    if a.toNat < b.toNat then true
    else if b.toNat < a.toNat then false
    else lexLe as bs

def pyStrLe (s t : String) : Bool :=
  lexLe s.data t.data

/-! ### JSON values

`json.loads` can return dicts, lists, strings, numbers, booleans and
`None`; the value type mirrors that.  Numbers keep their raw literal text:
the generator only ever uses parsed numbers through truthiness tests and
(hashable) dict keys, for which the literal suffices (float identification
of distinct literals such as `1` vs `1.0`, and `True` vs `1` as dict keys,
are not modelled; no claim depends on them).  Lists of members are
dedicated mutual inductives so that all recursion over values is
structural and kernel-evaluable. -/

mutual
inductive Json where
  | str (s : String)
  | num (raw : String)
  | bool (b : Bool)
  | null
  | arr (elems : JArr)
  | obj (mems : JObj)
  deriving DecidableEq
inductive JArr where
  | nil
  | cons (hd : Json) (tl : JArr)
  deriving DecidableEq
inductive JObj where
  | nil
  | cons (key : String) (val : Json) (tl : JObj)
  deriving DecidableEq
end

def JObj.keys : JObj → List String
  | .nil => []
  | .cons k _ tl => k :: JObj.keys tl

def JObj.find : JObj → String → Option Json
  | .nil, _ => none
  | .cons k v tl, key => if k = key then some v else JObj.find tl key

def JObj.erase : JObj → String → JObj
  | .nil, _ => .nil
  | .cons k v tl, key => if k = key then tl else .cons k v (JObj.erase tl key)

def JObj.toList : JObj → List (String × Json)
  | .nil => []
  | .cons k v tl => (k, v) :: JObj.toList tl

def JArr.toList : JArr → List Json
  | .nil => []
  | .cons v tl => v :: JArr.toList tl

def JObj.ofList : List (String × Json) → JObj
  | [] => .nil
  | (k, v) :: rest => .cons k v (JObj.ofList rest)

/-! ### Errors

The generator surfaces failures as Python exceptions.  They are modelled
structurally: `typeNotFound` is the `ValueError` raised for an unknown
`slide_type` (carrying the requested type and the catalog's key list),
`layoutNotFound` the `ValueError` of the layout-resolution last resort,
and `pyErr` any other uncaught exception (`TypeError`, `AttributeError`,
`IndexError`). -/

inductive GenError where
  | typeNotFound (requested : String) (available : List Json)
  | layoutNotFound (layoutName : String)
  | pyErr (msg : String)
  deriving DecidableEq

/-- Is a JSON number literal a nonzero float?  Models Python truthiness of
the parsed number: zero iff every mantissa digit is `0` (exponent
underflow and overflow of extreme literals are not modelled). -/
def numNonzero (raw : String) : Bool :=
  ((raw.data.takeWhile (fun c => c ≠ 'e' ∧ c ≠ 'E')).filter Char.isDigit).any
    (fun c => c ≠ '0')

/-- Python truthiness of a `json.loads` result. -/
def pyTruthy : Json → Bool
  | .str s => s ≠ ""
  | .num raw => numNonzero raw
  | .bool b => b
  | .null => false
  | .arr .nil => false
  | .arr (.cons _ _) => true
  | .obj .nil => false
  | .obj (.cons _ _ _) => true

def jarrHasStr : JArr → String → Bool
  | .nil, _ => false
  | .cons (.str s) tl, key => s = key || jarrHasStr tl key
  | .cons _ tl, key => jarrHasStr tl key

/-- Python `key in value` for a string `key`: key lookup on dicts,
substring test on strings, `==`-membership on lists, `TypeError`
otherwise. -/
def pyContains (key : String) : Json → Except GenError Bool
  | .obj ms => .ok (ms.keys.contains key)
  | .str s => .ok (strContains s key)
  | .arr es => .ok (jarrHasStr es key)
  | _ => .error (.pyErr "TypeError: argument not iterable")

/-- Python `value[key]` for a string `key`. -/
def pyIndexStr (j : Json) (key : String) : Except GenError Json :=
  match j with
  | .obj ms =>
    match ms.find key with
    | some v => .ok v
    | none => .error (.pyErr "KeyError")
  | _ => .error (.pyErr "TypeError: indices must be integers")

/-- Python `value.get(key, dflt)`: only dicts have `.get`. -/
def pyGetD (j : Json) (key : String) (dflt : Json) : Except GenError Json :=
  match j with
  | .obj ms => .ok ((ms.find key).getD dflt)
  | _ => .error (.pyErr "AttributeError: no attribute get")

/-- Python values usable as dict keys (`slide_type_map[slide_type]`):
lists and dicts are unhashable. -/
def pyHashable : Json → Bool
  | .arr _ => false
  | .obj _ => false
  | _ => true

/-- Effectful map over a list, stopping at the first raised exception —
the shape of every sequential Python loop in the generator. -/
def exMapM {α β : Type} (f : α → Except GenError β) : List α → Except GenError (List β)
  | [] => .ok []
  | a :: tl =>
    match f a with
    | .error e => .error e
    | .ok b =>
      match exMapM f tl with
      | .error e => .error e
      | .ok bs => .ok (b :: bs)

/-! ### JSON parsing (`json.loads`)

An executable model of the strict JSON grammar accepted by `json.loads`.
Whitespace is the JSON whitespace set; strings support all JSON escapes
including `\uXXXX` with surrogate pairs (lone surrogates, which Python
keeps as unpaired code units but Lean `Char` cannot represent, are
rejected); raw control characters in strings are rejected (strict mode).
The value parsers carry fuel for structural recursion; each parsing step
consumes at least one character before recursing, so fuel `length + 1`
never runs out on any input. -/

def isJsonWs (c : Char) : Bool :=
  c = ' ' || c = Char.ofNat 9 || c = Char.ofNat 10 || c = Char.ofNat 13

def skipWs (cs : List Char) : List Char :=
  cs.dropWhile isJsonWs

def hexVal (c : Char) : Option Nat :=
  if 48 ≤ c.toNat ∧ c.toNat ≤ 57 then some (c.toNat - 48)
  else if 97 ≤ c.toNat ∧ c.toNat ≤ 102 then some (c.toNat - 87)
  else if 65 ≤ c.toNat ∧ c.toNat ≤ 70 then some (c.toNat - 55)
  else none

/-- Combine a leading dict member with the dict of the remaining members,
with Python duplicate-key semantics: the first occurrence of a key fixes
its position, the last occurrence fixes its value. -/
def consMemPy (k : String) (v : Json) (ms : JObj) : JObj :=
  match ms.find k with
  | some v2 => .cons k v2 (ms.erase k)
  | none => .cons k v ms

def parseHex4 : List Char → Option (Nat × List Char)
  | c1 :: c2 :: c3 :: c4 :: rest =>
    match hexVal c1, hexVal c2, hexVal c3, hexVal c4 with
    | some a, some b, some c, some d => some (a * 4096 + b * 256 + c * 16 + d, rest)
    | _, _, _, _ => none
  | _ => none

/-- Parse the body of a JSON string (after the opening quote), returning
the decoded characters and the input after the closing quote. -/
def parseStrF : Nat → List Char → Option (List Char × List Char)
  | 0, _ => none
  | _ + 1, [] => none
  | f + 1, c :: rest =>
    if c = quoteC then some ([], rest)
    else if c = bslashC then
      match rest with
      | [] => none
      | e :: rest2 =>
        if e = quoteC then (parseStrF f rest2).map (fun p => (quoteC :: p.1, p.2))
        else if e = bslashC then (parseStrF f rest2).map (fun p => (bslashC :: p.1, p.2))
        else if e = '/' then (parseStrF f rest2).map (fun p => ('/' :: p.1, p.2))
        else if e = 'b' then (parseStrF f rest2).map (fun p => (Char.ofNat 8 :: p.1, p.2))
        else if e = 'f' then (parseStrF f rest2).map (fun p => (Char.ofNat 12 :: p.1, p.2))
        else if e = 'n' then (parseStrF f rest2).map (fun p => (Char.ofNat 10 :: p.1, p.2))
        else if e = 'r' then (parseStrF f rest2).map (fun p => (Char.ofNat 13 :: p.1, p.2))
        else if e = 't' then (parseStrF f rest2).map (fun p => (Char.ofNat 9 :: p.1, p.2))
        else if e = 'u' then
          match parseHex4 rest2 with
          | none => none
          | some (n, rest3) =>
            if n < 55296 ∨ 57343 < n then
              (parseStrF f rest3).map (fun p => (Char.ofNat n :: p.1, p.2))
            else if n ≤ 56319 then
              match rest3 with
              | b1 :: u1 :: rest4 =>
                if b1 = bslashC ∧ u1 = 'u' then
                  match parseHex4 rest4 with
                  | some (m, rest5) =>
                    if 56320 ≤ m ∧ m ≤ 57343 then
                      (parseStrF f rest5).map
                        (fun p => (Char.ofNat (65536 + (n - 55296) * 1024 + (m - 56320)) :: p.1, p.2))
                    else none
                  | none => none
                else none
              | _ => none
            else none
        else none
    else if c.toNat < 32 then none
    else (parseStrF f rest).map (fun p => (c :: p.1, p.2))

/-- Lex a JSON number literal, returning its raw text and the rest. -/
def parseNum (cs : List Char) : Option (String × List Char) :=
  let (sgn, cs1) :=
    match cs with
    | '-' :: rest => (['-'], rest)
    | _ => (([] : List Char), cs)
  let ds := cs1.takeWhile Char.isDigit
  if ds = [] then none
  else if 2 ≤ ds.length ∧ ds.headD ' ' = '0' then none
  else
    let cs2 := cs1.drop ds.length
    let (fr, cs3) :=
      match cs2 with
      | '.' :: rest =>
        let fs := rest.takeWhile Char.isDigit
        if fs = [] then (none, cs2) else (some ('.' :: fs), rest.drop fs.length)
      | _ => (none, cs2)
    match fr, cs2 with
    | none, '.' :: _ => none
    | _, _ =>
      let (ex, cs4) :=
        match cs3 with
        | e :: rest =>
          if e = 'e' ∨ e = 'E' then
            let (es, rest2) :=
              match rest with
              | '+' :: r2 => ([e, '+'], r2)
              | '-' :: r2 => ([e, '-'], r2)
              | _ => ([e], rest)
            let xs := rest2.takeWhile Char.isDigit
            if xs = [] then (none, cs3) else (some (es ++ xs), rest2.drop xs.length)
          else (none, cs3)
        | _ => (none, cs3)
      match ex, cs3 with
      | none, e :: _ =>
        if e = 'e' ∨ e = 'E' then none
        else some (String.mk (sgn ++ ds ++ (fr.getD []) ), cs3)
      | _, _ =>
        some (String.mk (sgn ++ ds ++ (fr.getD []) ++ (ex.getD [])), cs4)

mutual
def parseVal : Nat → List Char → Option (Json × List Char)
  | 0, _ => none
  | _ + 1, [] => none
  | f + 1, c :: rest =>
    if c = quoteC then
      (parseStrF rest.length rest).map (fun p => (Json.str (String.mk p.1), p.2))
    else if c = lbraceC then
      match skipWs rest with
      | [] => none
      | c2 :: rest2 =>
        if c2 = rbraceC then some (.obj .nil, rest2)
        else parseMems f (c2 :: rest2)
    else if c = '[' then
      match skipWs rest with
      | [] => none
      | c2 :: rest2 =>
        if c2 = ']' then some (.arr .nil, rest2)
        else parseElems f (c2 :: rest2)
    else if ['t', 'r', 'u', 'e'].isPrefixOf (c :: rest) then
      some (.bool true, (c :: rest).drop 4)
    else if ['f', 'a', 'l', 's', 'e'].isPrefixOf (c :: rest) then
      some (.bool false, (c :: rest).drop 5)
    else if ['n', 'u', 'l', 'l'].isPrefixOf (c :: rest) then
      some (.null, (c :: rest).drop 4)
    else
      (parseNum (c :: rest)).map (fun p => (Json.num p.1, p.2))

/-- Parse `string : value (, string : value)* }` with Python dict
semantics for duplicate keys (last value wins, first position kept). -/
def parseMems : Nat → List Char → Option (Json × List Char)
  | 0, _ => none
  | _ + 1, [] => none
  | f + 1, c :: rest =>
    if c = quoteC then
      match parseStrF rest.length rest with
      | none => none
      | some (kcs, r1) =>
        match skipWs r1 with
        | c2 :: r2 =>
          if c2 = ':' then
            match parseVal f (skipWs r2) with
            | none => none
            | some (v, r3) =>
              match skipWs r3 with
              | c3 :: r4 =>
                if c3 = ',' then
                  match parseMems f (skipWs r4) with
                  | some (Json.obj ms, r5) =>
                    some (.obj (consMemPy (String.mk kcs) v ms), r5)
                  | _ => none
                else if c3 = rbraceC then
                  some (.obj (.cons (String.mk kcs) v .nil), r4)
                else none
              | [] => none
          else none
        | [] => none
    else none

def parseElems : Nat → List Char → Option (Json × List Char)
  | 0, _ => none
  | f + 1, cs =>
    match parseVal f cs with
    | none => none
    | some (v, r1) =>
      match skipWs r1 with
      | c2 :: r2 =>
        if c2 = ',' then
          match parseElems f (skipWs r2) with
          | some (Json.arr es, r3) => some (.arr (.cons v es), r3)
          | _ => none
        else if c2 = ']' then some (.arr (.cons v .nil), r2)
        else none
      | [] => none
end

/-- `json.loads`: parse one value surrounded by optional whitespace. -/
def jsonParse (s : String) : Option Json :=
  match parseVal (s.data.length + 1) (skipWs s.data) with
  | some (v, rest) => if skipWs rest = [] then some v else none
  | none => none

/-! ### JSON serialization (`json.dumps` with its `ensure_ascii` default)

This models the serializer used by the repository's template authoring
scripts (`json.dumps(metadata, ...)`): `"` and `\` get two-character
escapes, the five control characters with short forms get those, every
other character outside printable ASCII is emitted as `\uXXXX` (with a
surrogate pair above U+FFFF).  Item separators are `", "` and `": "`;
indentation whitespace is immaterial to the parser and is not modelled. -/

def hexDig (n : Nat) : Char :=
  Char.ofNat (if n < 10 then 48 + n else 87 + n)

def uEsc4 (n : Nat) : List Char :=
  [bslashC, 'u', hexDig (n / 4096 % 16), hexDig (n / 256 % 16), hexDig (n / 16 % 16), hexDig (n % 16)]

def escChar (c : Char) : List Char :=
  if c = quoteC then [bslashC, quoteC]
  else if c = bslashC then [bslashC, bslashC]
  else if c = Char.ofNat 10 then [bslashC, 'n']
  else if c = Char.ofNat 9 then [bslashC, 't']
  else if c = Char.ofNat 13 then [bslashC, 'r']
  else if c = Char.ofNat 8 then [bslashC, 'b']
  else if c = Char.ofNat 12 then [bslashC, 'f']
  else if c.toNat < 32 ∨ 126 < c.toNat then
    if c.toNat ≤ 65535 then uEsc4 c.toNat
    else uEsc4 (55296 + (c.toNat - 65536) / 1024) ++ uEsc4 (56320 + (c.toNat - 65536) % 1024)
  else [c]

def dumpStr (s : String) : List Char :=
  quoteC :: s.data.flatMap escChar ++ [quoteC]

mutual
def dumpV : Json → List Char
  | .str s => dumpStr s
  | .num raw => raw.data
  | .bool true => ['t', 'r', 'u', 'e']
  | .bool false => ['f', 'a', 'l', 's', 'e']
  | .null => ['n', 'u', 'l', 'l']
  | .arr .nil => ['[', ']']
  | .arr (.cons v tl) => '[' :: dumpElems (.cons v tl) ++ [']']
  | .obj .nil => [lbraceC, rbraceC]
  | .obj (.cons k v tl) => lbraceC :: dumpMems (.cons k v tl) ++ [rbraceC]

def dumpElems : JArr → List Char
  | .nil => []
  | .cons v .nil => dumpV v
  | .cons v (.cons v2 tl) => dumpV v ++ ',' :: ' ' :: dumpElems (.cons v2 tl)

def dumpMems : JObj → List Char
  | .nil => []
  | .cons k v .nil => dumpStr k ++ ':' :: ' ' :: dumpV v
  | .cons k v (.cons k2 v2 tl) =>
    dumpStr k ++ ':' :: ' ' :: dumpV v ++ ',' :: ' ' :: dumpMems (.cons k2 v2 tl)
end

/-! ### Caller-supplied field values

`slides_data` field values reaching the populator are strings, numbers or
(nested) lists — the payloads the populating code distinguishes.  The list
payload is a dedicated mutual inductive so recursion stays structural. -/

mutual
inductive Value where
  | str (s : String)
  | int (n : Int)
  | list (elems : VList)
  deriving DecidableEq
inductive VList where
  | nil
  | cons (hd : Value) (tl : VList)
  deriving DecidableEq
end

def VList.toList : VList → List Value
  | .nil => []
  | .cons v tl => v :: VList.toList tl

def VList.ofList : List Value → VList
  | [] => .nil
  | v :: rest => .cons v (VList.ofList rest)

mutual
/-- Python `str(value)` (string content assumed free of characters that
`repr` would escape, which is all the model ever evaluates it on). -/
def pyStr : Value → String
  | .str s => s
  | .int n => toString n
  | .list vs => String.mk ('[' :: pyStrInner vs ++ [']'])

def pyStrInner : VList → List Char
  | .nil => []
  | .cons v .nil => pyRepr v
  | .cons v (.cons v2 tl) => pyRepr v ++ ',' :: ' ' :: pyStrInner (.cons v2 tl)

def pyRepr : Value → List Char
  | .str s => aposC :: s.data ++ [aposC]
  | .int n => (toString n).data
  | .list vs => '[' :: pyStrInner vs ++ [']']
end

/-- Python iteration `for x in value`: lists yield their elements, strings
yield their characters as one-character strings, numbers raise
`TypeError`. -/
def pyIterate : Value → Except GenError (List Value)
  | .list vs => .ok vs.toList
  | .str s => .ok (s.data.map (fun c => Value.str (String.mk [c])))
  | .int _ => .error (.pyErr "TypeError: int is not iterable")

/-- Iterate a value as a 2-D grid (rows, then cells of each row).  The
source iterates rows lazily inside the table-bounds check; the eager
conversion here differs only for non-iterable rows that lie beyond the
bounds of every matching table, a case no claim exercises. -/
def pyToGrid (v : Value) : Except GenError (List (List Value)) :=
  match pyIterate v with
  | .error e => .error e
  | .ok rows => exMapM pyIterate rows

/-! ### The pptx document model

Granularity: a paragraph is text plus an indent level (alignment and run
formatting are below the level any claim speaks about); a text frame is a
paragraph list; a table is a grid of cell texts; shapes are the variants
the generator dispatches on.  `Shape.text` is python-pptx `shape.text`:
paragraph texts joined by newlines. -/

structure Para where
  text : String
  level : Nat
  deriving DecidableEq

structure TextFrame where
  paras : List Para
  deriving DecidableEq

/-- python-pptx `TextFrame.clear()`: a single empty paragraph remains. -/
def TextFrame.clearTF : TextFrame :=
  ⟨[⟨"", 0⟩]⟩

def TextFrame.text (tf : TextFrame) : String :=
  String.intercalate "\n" (tf.paras.map Para.text)

/-- A table models `shape.table`: a grid of cell texts. -/
abbrev Table := List (List String)

/-- Shape variants distinguished by the generator's capability checks and
`shape_type` dispatch.  `placeholder` is a text-bearing layout placeholder
(`is_placeholder` true, has `text_frame`), `picPlaceholder` a picture
placeholder (with its image bytes, abstracted to a tag, when filled),
`table` a graphic frame holding a table (`has .table`, no `text_frame`),
`connector` a line/connector shape. -/
inductive Shape where
  | placeholder (idx : Nat) (tf : TextFrame)
  | picPlaceholder (idx : Nat) (image : Option String)
  | picture (image : String)
  | textBox (tf : TextFrame)
  | autoShape (tf : TextFrame)
  | table (t : Table)
  | connector
  deriving DecidableEq

/-- `hasattr(shape, "text_frame")` in the model. -/
def Shape.tf? : Shape → Option TextFrame
  | .placeholder _ tf => some tf
  | .textBox tf => some tf
  | .autoShape tf => some tf
  | _ => none

/-- Rebuild the same shape variant around a new text frame. -/
def Shape.withTf : Shape → TextFrame → Shape
  | .placeholder i _, tf => .placeholder i tf
  | .textBox _, tf => .textBox tf
  | .autoShape _, tf => .autoShape tf
  | s, _ => s

def Shape.table? : Shape → Option Table
  | .table t => some t
  | _ => none

/-- A slide: its layout (by name), shapes in z-order, and the notes text
(none when `has_notes_slide` is false). -/
structure Slide where
  layoutName : String
  shapes : List Shape
  notes : Option String
  deriving DecidableEq

/-- A slide layout: its name and the placeholders `add_slide` clones into
a fresh slide. -/
structure PhSpec where
  idx : Nat
  tf : TextFrame
  deriving DecidableEq

structure Layout where
  name : String
  phs : List PhSpec
  deriving DecidableEq

/-- A presentation: the layouts reachable through `prs.slide_layouts` and
the slide sequence. -/
structure Pres where
  layouts : List Layout
  slides : List Slide
  deriving DecidableEq

/-- The `{{field_name}}` placeholder token. -/
def fieldToken (name : String) : String :=
  String.mk (lbraceC :: lbraceC :: name.data ++ [rbraceC, rbraceC])

/-! ### Metadata extraction (`parse_slide_metadata`) -/

/-- The notes-text processing of `parse_slide_metadata`: strip; empty
means no metadata; normalize typographic quotes; strict JSON parse, with
parse failure mapped to `None`. -/
def parseNotesText (t : String) : Option Json :=
  let s := pyStrip t
  if s = "" then none
  else jsonParse (normalizeQuotes s)

/-- `parse_slide_metadata`: `None` without a notes slide, else the notes
text processed by `parseNotesText`. -/
def parseSlideMetadata (sl : Slide) : Option Json :=
  match sl.notes with
  | none => none
  | some t => parseNotesText t

/-! ### Field population (`_replace_text_in_slide`, `_populate_list_field`,
`_populate_table_field`, `_populate_slide`) -/

/-- Text-frame step of `_replace_text_in_slide`: when the joined shape
text contains the token, the frame is cleared and rebuilt as one paragraph
holding the replaced text. -/
def replaceInTF (tok val : String) (tf : TextFrame) : TextFrame :=
  if strContains tf.text tok then ⟨[⟨pyReplace tf.text tok val, 0⟩]⟩ else tf

def replaceInCell (tok val : String) (cell : String) : String :=
  if strContains cell tok then pyReplace cell tok val else cell

/-- One shape's treatment in `_replace_text_in_slide`: the text-frame
branch for shapes with a text frame, the cell-by-cell branch for
tables. -/
def replaceShape (tok val : String) (sh : Shape) : Shape :=
  match sh.tf? with
  | some tf => sh.withTf (replaceInTF tok val tf)
  | none =>
    match sh with
    | .table t => .table (t.map (fun row => row.map (replaceInCell tok val)))
    | _ => sh

/-- `_replace_text_in_slide`: every shape with a text frame and every
table cell gets the replacement (the loop has no early exit). -/
def replaceTextInSlide (sl : Slide) (tok val : String) : Slide :=
  { sl with shapes := sl.shapes.map (replaceShape tok val) }

/-- Result of `_populate_list_field` on the matched frame: `clear()`
leaves one empty paragraph; item `0` overwrites it and the remaining
items are appended, each at level `0`. -/
def listFieldTF (items : List Value) : TextFrame :=
  match items with
  | [] => TextFrame.clearTF
  | _ => ⟨items.map (fun v => ⟨pyStr v, 0⟩)⟩

def goListField (tok : String) (items : List Value) : List Shape → List Shape
  | [] => []
  | sh :: rest =>
    match sh.tf? with
    | some tf =>
      if strContains tf.text tok then sh.withTf (listFieldTF items) :: rest
      else sh :: goListField tok items rest
    | none => sh :: goListField tok items rest

/-- `_populate_list_field`: rebuild the first token-bearing text frame as
one paragraph per item and return. -/
def populateListField (sl : Slide) (name : String) (items : List Value) : Slide :=
  { sl with shapes := goListField (fieldToken name) items sl.shapes }

/-- Does a shape satisfy the list-population match test (`has a text
frame and its text contains the token`)? -/
def shMatches (tok : String) (sh : Shape) : Bool :=
  match sh.tf? with
  | some tf => strContains tf.text tok
  | none => false

def tableHasTok (tok : String) (t : Table) : Bool :=
  t.any (fun row => row.any (fun cell => strContains cell tok))

/-- Clearing pass of `_populate_table_field`: remove the token from every
cell. -/
def clearTok (tok : String) (t : Table) : Table :=
  t.map (fun row => row.map (fun cell => pyReplace cell tok ""))

/-- Filling pass of `_populate_table_field`: cell `(r, c)` receives the
stringified grid entry when the grid supplies one, bounded by the table's
own rows and per-row cells; grid entries beyond the table are dropped. -/
def writeGrid (grid : List (List Value)) (t : Table) : Table :=
  t.mapIdx (fun r row => row.mapIdx (fun c cell =>
    match grid[r]? with
    | some rd =>
      match rd[c]? with
      | some v => pyStr v
      | none => cell
    | none => cell))

def fillTable (tok : String) (grid : List (List Value)) (t : Table) : Table :=
  writeGrid grid (clearTok tok t)

/-- The final text of cell `(r, c)` in a populated table whose original
text was `cell`: the stringified grid entry when the grid supplies one,
else the token-cleared original. -/
def gridCell (grid : List (List Value)) (tok : String) (r c : Nat) (cell : String) : String :=
  match grid[r]? with
  | some rd =>
    match rd[c]? with
    | some v => pyStr v
    | none => pyReplace cell tok ""
  | none => pyReplace cell tok ""

def goTableField (tok : String) (grid : List (List Value)) : List Shape → List Shape
  | [] => []
  | sh :: rest =>
    match sh.table? with
    | some t =>
      if tableHasTok tok t && !grid.isEmpty then Shape.table (fillTable tok grid t) :: rest
      else sh :: goTableField tok grid rest
    | none => sh :: goTableField tok grid rest

/-- `_populate_table_field`: the first table containing the token is
cleared and filled, provided the grid is truthy (a falsy/empty grid makes
the guard fail for every table, leaving the slide unchanged). -/
def populateTableField (sl : Slide) (name : String) (grid : List (List Value)) : Slide :=
  { sl with shapes := goTableField (fieldToken name) grid sl.shapes }

def fieldTypeTextLike (ft : Json) : Bool :=
  ft = Json.str "text" || ft = Json.str "paragraph" || ft = Json.str "number" ||
  ft = Json.str "date"

/-- One iteration of the `_populate_slide` field loop: look up the
descriptor (default empty dict), then its `type` (default `"text"`), and
dispatch.  A declared type outside the dispatch table (including the
`image` stub) leaves the slide unchanged. -/
def populateField (sl : Slide) (pinfo : Json) (name : String) (v : Value) :
    Except GenError Slide :=
  match pyGetD pinfo name (.obj .nil) with
  | .error e => .error e
  | .ok info =>
    match pyGetD info "type" (.str "text") with
    | .error e => .error e
    | .ok ftype =>
      if fieldTypeTextLike ftype then
        .ok (replaceTextInSlide sl (fieldToken name) (pyStr v))
      else if ftype = Json.str "list" then
        match pyIterate v with
        | .error e => .error e
        | .ok items => .ok (populateListField sl name items)
      else if ftype = Json.str "table" then
        match pyToGrid v with
        | .error e => .error e
        | .ok grid => .ok (populateTableField sl name grid)
      else
        .ok sl

/-- The field loop of `_populate_slide`. -/
def populateFields (pinfo : Json) : Slide → List (String × Value) → Except GenError Slide
  | sl, [] => .ok sl
  | sl, kv :: rest =>
    match populateField sl pinfo kv.1 kv.2 with
    | .error e => .error e
    | .ok sl2 => populateFields pinfo sl2 rest

/-- `_populate_slide`: `placeholders_info = metadata.get("placeholders", (dict))
if metadata else (dict)`, then the per-field dispatch loop. -/
def populateSlide (sl : Slide) (fields : List (String × Value)) (metadata : Json) :
    Except GenError Slide :=
  match
    (if pyTruthy metadata then pyGetD metadata "placeholders" (.obj .nil)
     else .ok (Json.obj .nil)) with
  | .error e => .error e
  | .ok pinfo => populateFields pinfo sl fields

/-! ### Slide catalog (`slide_type_map` construction) -/

structure CatEntry where
  idx : Nat
  slide : Slide
  metadata : Json
  deriving DecidableEq

/-- `slide_type_map`: association list keyed by the (hashable) Python
value found under `"slide_type"`, insertion-ordered, each bucket in
template slide order. -/
abbrev TypeMap := List (Json × List CatEntry)

def tmKeys (m : TypeMap) : List Json :=
  m.map Prod.fst

def tmFind : TypeMap → Json → Option (List CatEntry)
  | [], _ => none
  | (k, es) :: rest, key => if k = key then some es else tmFind rest key

def tmAppend : TypeMap → Json → CatEntry → TypeMap
  | [], key, e => [(key, [e])]
  | (k, es) :: rest, key, e =>
    if k = key then (k, es ++ [e]) :: rest else (k, es) :: tmAppend rest key e

/-- One slide's catalog step: `metadata and "slide_type" in metadata`
with Python semantics (`in` is substring on strings, membership on lists,
`TypeError` on numbers and booleans), then `metadata["slide_type"]`
(`TypeError` on non-dicts), then use as dict key (`TypeError` when
unhashable). -/
def catalogStep (sl : Slide) : Except GenError (Option (Json × Json)) :=
  match parseSlideMetadata sl with
  | none => .ok none
  | some md =>
    if pyTruthy md then
      match pyContains "slide_type" md with
      | .error e => .error e
      | .ok false => .ok none
      | .ok true =>
        match pyIndexStr md "slide_type" with
        | .error e => .error e
        | .ok v =>
          if pyHashable v then .ok (some (v, md))
          else .error (.pyErr "TypeError: unhashable type")
    else .ok none

def buildTypeMapAux (idx : Nat) (acc : TypeMap) : List Slide → Except GenError TypeMap
  | [] => .ok acc
  | sl :: rest =>
    match catalogStep sl with
    | .error e => .error e
    | .ok none => buildTypeMapAux (idx + 1) acc rest
    | .ok (some (k, md)) => buildTypeMapAux (idx + 1) (tmAppend acc k ⟨idx, sl, md⟩) rest

def buildSlideTypeMap (slides : List Slide) : Except GenError TypeMap :=
  buildTypeMapAux 0 [] slides

/-! ### Slide selection -/

/-- `set(candidate['metadata'].get('placeholders', {}).keys())`:
`AttributeError` when the `placeholders` value is not a dict. -/
def placeholderKeys (md : Json) : Except GenError (List String) :=
  match pyGetD md "placeholders" (.obj .nil) with
  | .error e => .error e
  | .ok (.obj ms) => .ok ms.keys.dedup
  | .ok _ => .error (.pyErr "AttributeError: no attribute keys")

/-- `len(candidate_fields & requested_fields)` for deduplicated
`candidate_fields`. -/
def interCard (ks req : List String) : Nat :=
  (ks.filter (fun k => req.contains k)).length

/-- The selector loop: `best_score` starts at `-1`, a strictly greater
score replaces the incumbent, ties keep the earlier candidate. -/
def selScan : List (CatEntry × Int) → Option CatEntry × Int → Option CatEntry × Int
  | [], acc => acc
  | p :: rest, acc => selScan rest (if p.2 > acc.2 then (some p.1, p.2) else acc)

/-- One candidate's scoring step: extract its placeholder key set and
count the overlap with the requested field names. -/
def scoreOne (reqFields : List String) (c : CatEntry) :
    Except GenError (CatEntry × Int) :=
  match placeholderKeys c.metadata with
  | .ok ks => .ok (c, (interCard ks reqFields : Int))
  | .error e => .error e

/-- Candidate selection for one requested spec: a single candidate is
returned directly, otherwise the field-overlap scoring loop runs
(`best_match if best_match else candidate_slides[0]`). -/
def selectEntry (cands : List CatEntry) (reqFields : List String) :
    Except GenError CatEntry :=
  match cands with
  | [c] => .ok c
  | _ =>
    match exMapM (scoreOne reqFields) cands with
    | .error e => .error e
    | .ok scored =>
      match (selScan scored (none, -1)).1 with
      | some c => .ok c
      | none =>
        match cands with
        | c0 :: _ => .ok c0
        | [] => .error (.pyErr "IndexError: list index out of range")

/-- The candidate-key extraction as a total function (equal to
`placeholderKeys` wherever the latter succeeds). -/
def phKeysD (md : Json) : List String :=
  match placeholderKeys md with
  | .ok ks => ks
  | .error _ => []

/-- A candidate's selection score: the cardinality of the intersection of
its declared placeholder field names with the requested field names. -/
def candScore (req : List String) (c : CatEntry) : Nat :=
  interCard (phKeysD c.metadata) req

/-! ### Requests and resolution -/

/-- A requested slide spec, per the external interface
(`slide_type: string`, `fields: mapping`). -/
structure SlideSpec where
  slideType : String
  fields : List (String × Value)
  deriving DecidableEq

/-- A resolved spec.  The source stores the template index and re-reads
the slide from a freshly reopened (identical) template; the pure model
carries the selected slide value directly. -/
structure BuildInfo where
  slide : Slide
  fields : List (String × Value)
  metadata : Json
  deriving DecidableEq

def resolveOne (m : TypeMap) (spec : SlideSpec) : Except GenError BuildInfo :=
  match tmFind m (.str spec.slideType) with
  | none => .error (.typeNotFound spec.slideType (tmKeys m))
  | some cands =>
    match selectEntry cands (spec.fields.map Prod.fst) with
    | .error e => .error e
    | .ok e => .ok ⟨e.slide, spec.fields, e.metadata⟩

def resolveSpecs (m : TypeMap) (specs : List SlideSpec) :
    Except GenError (List BuildInfo) :=
  exMapM (resolveOne m) specs

/-! ### Layout resolution and slide cloning -/

/-- Layout resolution as the source actually behaves: name match, else
first available layout, else a failure naming the unmatched layout.  The
source's intermediate positional-index fallback is dead code: it reads
`slide_layout.element.getparent()`, which is `None` because the layout
element is the root of its own part, so the `.index` call raises
`AttributeError` and the bare `except: pass` swallows it on every
execution. -/
def resolveLayout (layouts : List Layout) (layoutName : String) :
    Except GenError Layout :=
  match layouts.find? (fun l => l.name == layoutName) with
  | some l => .ok l
  | none =>
    match layouts with
    | l0 :: _ => .ok l0
    | [] => .error (.layoutNotFound layoutName)

/-- Modelled from the spec: the resolution order the specification
describes — name match, then the output layout at the source layout's
positional index, then the first available layout, else a failure naming
the layout (`srcIdx` is the source layout's index within its master's
layout list). -/
def resolveLayoutSpec (layouts : List Layout) (layoutName : String) (srcIdx : Nat) :
    Except GenError Layout :=
  match layouts.find? (fun l => l.name == layoutName) with
  | some l => .ok l
  | none =>
    match layouts[srcIdx]? with
    | some l => .ok l
    | none =>
      match layouts with
      | l0 :: _ => .ok l0
      | [] => .error (.layoutNotFound layoutName)

/-- `slides.add_slide(layout)`: a fresh slide on that layout carrying the
layout's cloned placeholders. -/
def addSlide (layout : Layout) : Slide :=
  ⟨layout.name, layout.phs.map (fun p => Shape.placeholder p.idx p.tf), none⟩

/-- First pass of `_copy_slide_shapes`: a source picture placeholder
holding an image lands in the target (as a picture carrying those bytes)
when the target has a placeholder of the same index; both the
`insert_picture` path and its `add_picture` fallback are modelled as that
one outcome. -/
def copyPicPhs (src : List Shape) (tgt : Slide) : Slide :=
  src.foldl (fun acc sh =>
    match sh with
    | .picPlaceholder i (some img) =>
      if acc.shapes.any (fun t =>
          match t with
          | .placeholder j _ => j == i
          | _ => false) then
        { acc with shapes := acc.shapes ++ [Shape.picture img] }
      else acc
    | _ => acc) tgt

/-- Second pass of `_copy_slide_shapes`: non-placeholder shapes copied by
kind — pictures and text boxes always, auto shapes only with non-blank
text; connectors and graphic frames (tables) are not copied. -/
def copyFreeShape (acc : Slide) (sh : Shape) : Slide :=
  match sh with
  | .picture img => { acc with shapes := acc.shapes ++ [Shape.picture img] }
  | .textBox tf => { acc with shapes := acc.shapes ++ [Shape.textBox tf] }
  | .autoShape tf =>
    if pyStrip tf.text = "" then acc
    else { acc with shapes := acc.shapes ++ [Shape.autoShape tf] }
  | _ => acc

def copySlideShapes (src : Slide) (tgt : Slide) : Slide :=
  src.shapes.foldl copyFreeShape (copyPicPhs src.shapes tgt)

/-- Replace the text frame of the first target placeholder with the given
index (`break` after the first match). -/
def setPhTf : List Shape → Nat → TextFrame → List Shape
  | [], _, _ => []
  | sh :: rest, i, tf =>
    match sh with
    | .placeholder j _ =>
      if j = i then Shape.placeholder j tf :: rest else sh :: setPhTf rest i tf
    | _ => sh :: setPhTf rest i tf

/-- `_copy_placeholder_content`: each text-bearing source placeholder's
frame content is copied into the same-indexed target placeholder. -/
def copyPlaceholderContent (src : Slide) (tgt : Slide) : Slide :=
  src.shapes.foldl (fun acc sh =>
    match sh with
    | .placeholder i tf => { acc with shapes := setPhTf acc.shapes i tf }
    | _ => acc) tgt

/-- Per-spec composition: resolve the layout, add a fresh slide, copy the
template slide's shapes, copy placeholder content, populate. -/
def composeOne (layouts : List Layout) (b : BuildInfo) : Except GenError Slide :=
  match resolveLayout layouts b.slide.layoutName with
  | .error e => .error e
  | .ok layout =>
    populateSlide (copyPlaceholderContent b.slide (copySlideShapes b.slide (addSlide layout)))
      b.fields b.metadata

/-! ### The orchestrator (`generate_from_slides`) -/

/-- `generate_from_slides`.  The first component is the sequence of file
states written to the output path: `shutil.copy` writes the template
bytes, `output_prs.save` writes the finished presentation.  Catalog
building and spec resolution happen before any write; composition errors
happen after the template copy was written. -/
def generateFromSlides (template : Pres) (slidesData : List SlideSpec) :
    List Pres × Except GenError Pres :=
  match buildSlideTypeMap template.slides with
  | .error e => ([], .error e)
  | .ok m =>
    match resolveSpecs m slidesData with
    | .error e => ([], .error e)
    | .ok builds =>
      match exMapM (composeOne template.layouts) builds with
      | .error e => ([template], .error e)
      | .ok newSlides =>
        ([template, { template with slides := newSlides }],
          .ok { template with slides := newSlides })

/-! ### Field discovery (`get_template_fields`) -/

/-- The scan of `re.findall(r'\x7b\x7b([^\x7d]+)\x7d\x7d', text)`: at a
`\x7b\x7b`, the capture is the maximal nonempty run of non-`\x7d`
characters and must be followed by `\x7d\x7d`; on a failed match the scan
advances one character, after a match it resumes past the closing pair.
Fuel is the input length (each step consumes at least one character). -/
def findToksF : Nat → List Char → List (List Char)
  | 0, _ => []
  | f + 1, cs =>
    match cs with
    | [] => []
    | c :: rest =>
      if c = lbraceC then
        match rest with
        | c2 :: rest2 =>
          if c2 = lbraceC then
            let run := rest2.takeWhile (fun x => x != rbraceC)
            match rest2.drop run.length with
            | a1 :: a2 :: rest3 =>
              if (a1 = rbraceC ∧ a2 = rbraceC) ∧ run ≠ [] then run :: findToksF f rest3
              else findToksF f rest
            | _ => findToksF f rest
          else findToksF f rest
        | [] => []
      else findToksF f rest

def findTokens (s : String) : List String :=
  (findToksF s.data.length s.data).map String.mk

/-- Tokens contributed by one shape in `get_template_fields`: shapes with
a text frame are scanned when their text is truthy, tables cell by
cell. -/
def shapeTokens (sh : Shape) : List String :=
  match sh.tf? with
  | some tf => if tf.text = "" then [] else findTokens tf.text
  | none =>
    match sh with
    | .table t => t.flatMap (fun row => row.flatMap findTokens)
    | _ => []

/-- `get_template_fields`: the distinct tokens over all slides, sorted
ascending (`sorted(list(fields))`, Python's code-point order). -/
def getTemplateFields (prs : Pres) : List String :=
  List.insertionSort (fun a b => pyStrLe a b = true)
    ((prs.slides.flatMap (fun sl => sl.shapes.flatMap shapeTokens)).dedup)

/-! ### Well-formed metadata values and their serialization

The repository's template-authoring scripts write the notes annotation
with `json.dumps(metadata, ...)` over the structure the spec fixes for
`SlideMetadata` (`slide_type`, `description`, `placeholders` mapping
field names to `{type, description}` descriptors); `serializeMetadata`
is that serializer over `dumpV`. -/

structure FieldDescriptor where
  ftype : String
  fdesc : String
  deriving DecidableEq

structure SlideMetadata where
  slideType : String
  sdesc : String
  placeholders : List (String × FieldDescriptor)
  deriving DecidableEq

def FieldDescriptor.toJson (fd : FieldDescriptor) : Json :=
  .obj (.cons "type" (.str fd.ftype) (.cons "description" (.str fd.fdesc) .nil))

def phsToJObj : List (String × FieldDescriptor) → JObj
  | [] => .nil
  | (n, fd) :: rest => .cons n fd.toJson (phsToJObj rest)

def SlideMetadata.toJson (md : SlideMetadata) : Json :=
  .obj (.cons "slide_type" (.str md.slideType)
    (.cons "description" (.str md.sdesc)
      (.cons "placeholders" (.obj (phsToJObj md.placeholders)) .nil)))

def serializeMetadata (md : SlideMetadata) : String :=
  String.mk (dumpV md.toJson)

/-- One character of the claimed typographic corruption: each straight
double (single) quote is replaced by a left or right typographic double
(single) quote; all other characters are untouched. -/
def smartRelB (a b : Char) : Bool :=
  if a = quoteC then b = ldquoC || b = rdquoC
  else if a = aposC then b = lsquoC || b = rsquoC
  else a = b

def smartenedB : List Char → List Char → Bool
  | [], [] => true
  | a :: as, b :: bs => smartRelB a b && smartenedB as bs
  | _, _ => false

/-- `t` arises from `s` by replacing every straight double and single
quote with a typographic look-alike. -/
def SmartQuoted (s t : String) : Prop :=
  smartenedB s.data t.data = true

/-! ### Auxiliary measures and well-formedness predicates -/

mutual
/-- The string-or-object fragment of JSON (the shape of well-formed
metadata values), with duplicate-free keys at every object. -/
def mdOkV : Json → Bool
  | .str _ => true
  | .num _ => false
  | .bool _ => false
  | .null => false
  | .arr _ => false
  | .obj ms => mdOkM ms && decide (JObj.keys ms).Nodup
def mdOkM : JObj → Bool
  | .nil => true
  | .cons _ v tl => mdOkV v && mdOkM tl
end

mutual
/-- Fuel sufficient for `parseVal` on the serialized form of a value. -/
def szV : Json → Nat
  | .str _ => 1
  | .num _ => 1
  | .bool _ => 1
  | .null => 1
  | .arr _ => 1
  | .obj .nil => 1
  | .obj (.cons k v tl) => 1 + szM (.cons k v tl)
def szM : JObj → Nat
  | .nil => 1
  | .cons _ v tl => 1 + max (szV v) (szM tl)
end

/-- The catalog key a slide contributes, when its catalog step neither
skips nor raises. -/
def declaredKey (sl : Slide) : Option Json :=
  match catalogStep sl with
  | .ok (some (k, _)) => some k
  | _ => none

def psDescOk : JObj → Bool
  | .nil => true
  | .cons _ (.obj _) tl => psDescOk tl
  | .cons _ _ _ => false

/-- Well-formed catalog metadata for population and selection: a dict
whose `placeholders` value, when present, is a dict of dict
descriptors. -/
def descOkB : Json → Bool
  | .obj ms =>
    match ms.find "placeholders" with
    | none => true
    | some (.obj ps) => psDescOk ps
    | some _ => false
  | _ => false

/-- The declared type resolved for a field: the descriptor's `type` value
with the `text` defaults the populator applies. -/
def resolvedFieldType (md : Json) (name : String) : Json :=
  match md with
  | .obj ms =>
    match ms.find "placeholders" with
    | some (.obj ps) =>
      match ps.find name with
      | some (.obj ds) => (ds.find "type").getD (.str "text")
      | _ => .str "text"
    | _ => .str "text"
  | _ => .str "text"

/-- Is a field value acceptable for its resolved declared type (iterable
for `list`, an iterable of iterables for `table`)? -/
def valueOkFor (ft : Json) (v : Value) : Bool :=
  if ft = Json.str "list" then
    match pyIterate v with
    | .ok _ => true
    | .error _ => false
  else if ft = Json.str "table" then
    match pyToGrid v with
    | .ok _ => true
    | .error _ => false
  else true

def fieldsOkB (md : Json) (fields : List (String × Value)) : Bool :=
  fields.all (fun kv => valueOkFor (resolvedFieldType md kv.1) kv.2)

/-! ## Supporting lemmas -/

theorem lexLe_total : ∀ a b : List Char, lexLe a b = true ∨ lexLe b a = true := by
  intro a
  induction a with
  | nil => intro b; left; rfl
  | cons x xs ih =>
    intro b
    cases b with
    | nil => right; rfl
    | cons y ys =>
      by_cases h1 : x.toNat < y.toNat
      · left; simp [lexLe, h1]
      · by_cases h2 : y.toNat < x.toNat
        · right; simp [lexLe, h2]
        · rcases ih ys with h | h
          · left; simp [lexLe, h1, h2, h]
          · right; simp [lexLe, h1, h2, h]

theorem lexLe_trans : ∀ a b c : List Char,
    lexLe a b = true → lexLe b c = true → lexLe a c = true := by
  intro a
  induction a with
  | nil => intro b c _ _; rfl
  | cons x xs ih =>
    intro b c hab hbc
    cases b with
    | nil => simp [lexLe] at hab
    | cons y ys =>
      cases c with
      | nil => simp [lexLe] at hbc
      | cons z zs =>
        simp only [lexLe] at hab hbc ⊢
        split_ifs at hab hbc ⊢ with h1 h2 h3 h4 h5 h6 <;>
          first
          | rfl
          | omega
          | (exact ih ys zs hab hbc)

theorem pyStrLe_total (a b : String) : pyStrLe a b = true ∨ pyStrLe b a = true :=
  lexLe_total a.data b.data

theorem pyStrLe_trans {a b c : String} (h1 : pyStrLe a b = true)
    (h2 : pyStrLe b c = true) : pyStrLe a c = true :=
  lexLe_trans a.data b.data c.data h1 h2

/-! ## Claim C4 -/

/-- Claim C4: `parse_slide_metadata` returns `None` when the slide has no
notes annotation, returns `None` when the annotation's stripped text is
empty, returns `None` (totally, no exception) when the quote-normalized
text fails strict JSON parsing, and otherwise returns the parsed value. -/
theorem c4_parse_slide_metadata_contract (sl : Slide) :
    (sl.notes = none → parseSlideMetadata sl = none) ∧
    (∀ t, sl.notes = some t → pyStrip t = "" → parseSlideMetadata sl = none) ∧
    (∀ t, sl.notes = some t → pyStrip t ≠ "" →
      jsonParse (normalizeQuotes (pyStrip t)) = none →
      parseSlideMetadata sl = none) ∧
    (∀ t md, sl.notes = some t → pyStrip t ≠ "" →
      jsonParse (normalizeQuotes (pyStrip t)) = some md →
      parseSlideMetadata sl = some md) := by
  refine ⟨fun h => ?_, fun t ht he => ?_, fun t ht he hp => ?_, fun t md ht he hp => ?_⟩
  · simp [parseSlideMetadata, h]
  · simp [parseSlideMetadata, ht, parseNotesText, he]
  · simp [parseSlideMetadata, ht, parseNotesText, he, hp]
  · simp [parseSlideMetadata, ht, parseNotesText, he, hp]

theorem c4_parse_slide_metadata_contract_witness :
    parseSlideMetadata ⟨"L", [], none⟩ = none ∧
    parseSlideMetadata ⟨"L", [], some " "⟩ = none ∧
    parseSlideMetadata ⟨"L", [], some "nope"⟩ = none ∧
    parseSlideMetadata ⟨"L", [], some " \x7b\x7d "⟩ = some (.obj .nil) :=
  ⟨(c4_parse_slide_metadata_contract ⟨"L", [], none⟩).1 rfl,
   (c4_parse_slide_metadata_contract ⟨"L", [], some " "⟩).2.1 " " rfl rfl,
   (c4_parse_slide_metadata_contract ⟨"L", [], some "nope"⟩).2.2.1 "nope" rfl
     (by decide) rfl,
   (c4_parse_slide_metadata_contract ⟨"L", [], some " \x7b\x7d "⟩).2.2.2 " \x7b\x7d "
     (.obj .nil) rfl (by decide) rfl⟩

/-! ## Claim C9 -/

/-- Claim C9 (code-bug evidence): the specified resolution order is name
match, then positional index, then first layout, then an error naming the
layout (`resolveLayoutSpec`); the source's positional-index fallback never
executes because `slide_layout.element.getparent()` is `None` for a part
root and the resulting `AttributeError` is swallowed by the bare
`except`, so the code (`resolveLayout`) falls through to the first
layout.  At a template slide whose layout name is unmatched and whose
source layout sits at positional index 1, the spec picks the output
layout at index 1 while the code picks the layout at index 0; with no
layouts at all both fail naming the unmatched layout. -/
theorem c9_layout_resolution_divergence :
    resolveLayoutSpec [⟨"A", []⟩, ⟨"B", []⟩] "C" 1 = .ok ⟨"B", []⟩ ∧
    resolveLayout [⟨"A", []⟩, ⟨"B", []⟩] "C" = .ok ⟨"A", []⟩ ∧
    resolveLayout [⟨"A", []⟩, ⟨"B", []⟩] "B" = .ok ⟨"B", []⟩ ∧
    resolveLayoutSpec [⟨"A", []⟩, ⟨"B", []⟩] "B" 0 = .ok ⟨"B", []⟩ ∧
    resolveLayout [] "C" = .error (.layoutNotFound "C") ∧
    resolveLayoutSpec [] "C" 1 = .error (.layoutNotFound "C") :=
  ⟨rfl, rfl, rfl, rfl, rfl, rfl⟩

/-! ## Claim C10 -/

/-- Claim C10: `get_template_fields` returns the distinct field names
appearing as placeholder tokens in any shape text or table cell across
all slides, as a duplicate-free list sorted ascending in Python's
code-point string order; the template is an unmodified input (the model
function is pure in it). -/
theorem c10_get_template_fields_sorted_distinct (prs : Pres) :
    List.Sorted (fun a b : String => pyStrLe a b = true ∧ a ≠ b)
      (getTemplateFields prs) ∧
    (getTemplateFields prs).Nodup ∧
    (∀ s, s ∈ getTemplateFields prs ↔
      ∃ sl ∈ prs.slides, ∃ sh ∈ sl.shapes, s ∈ shapeTokens sh) := by
  haveI hTot : IsTotal String (fun a b => pyStrLe a b = true) := ⟨pyStrLe_total⟩
  haveI hTrans : IsTrans String (fun a b => pyStrLe a b = true) :=
    ⟨fun _ _ _ => pyStrLe_trans⟩
  have hsorted := List.sorted_insertionSort (fun a b : String => pyStrLe a b = true)
    ((prs.slides.flatMap (fun sl => sl.shapes.flatMap shapeTokens)).dedup)
  have hperm := List.perm_insertionSort (fun a b : String => pyStrLe a b = true)
    ((prs.slides.flatMap (fun sl => sl.shapes.flatMap shapeTokens)).dedup)
  have hnodup : (getTemplateFields prs).Nodup := by
    rw [getTemplateFields]
    exact hperm.nodup_iff.mpr (List.nodup_dedup _)
  refine ⟨?_, hnodup, fun s => ?_⟩
  · exact (hsorted.and hnodup).imp (fun h => h)
  · rw [getTemplateFields, hperm.mem_iff, List.mem_dedup, List.mem_flatMap]
    constructor
    · rintro ⟨sl, hsl, hmem⟩
      rw [List.mem_flatMap] at hmem
      obtain ⟨sh, hsh, hs⟩ := hmem
      exact ⟨sl, hsl, sh, hsh, hs⟩
    · rintro ⟨sl, hsl, sh, hsh, hs⟩
      exact ⟨sl, hsl, List.mem_flatMap.mpr ⟨sh, hsh, hs⟩⟩

/-! ## Lemmas about list-field population -/

theorem shMatches_some (tok : String) (sh : Shape) (h : shMatches tok sh = true) :
    ∃ tf, sh.tf? = some tf ∧ strContains tf.text tok = true := by
  unfold shMatches at h
  cases htf : sh.tf? with
  | none => rw [htf] at h; simp at h
  | some tf => rw [htf] at h; exact ⟨tf, rfl, by simpa using h⟩

theorem goListField_match (tok : String) (items : List Value) (sh : Shape)
    (rest : List Shape) (h : shMatches tok sh = true) :
    goListField tok items (sh :: rest) = sh.withTf (listFieldTF items) :: rest := by
  obtain ⟨tf, htf, hc⟩ := shMatches_some tok sh h
  conv_lhs => rw [goListField]
  simp [htf, hc]

theorem goListField_skip (tok : String) (items : List Value) (sh : Shape)
    (rest : List Shape) (h : shMatches tok sh = false) :
    goListField tok items (sh :: rest) = sh :: goListField tok items rest := by
  unfold shMatches at h
  conv_lhs => rw [goListField]
  cases htf : sh.tf? with
  | none => simp [htf]
  | some tf =>
    rw [htf] at h
    simp only at h
    simp [htf, h]

theorem goListField_spec (tok : String) (items : List Value) :
    ∀ (shapes : List Shape) (j : Nat) (s0 : Shape),
      shapes[j]? = some s0 →
      shMatches tok s0 = true →
      (∀ k, k < j → ∀ sh, shapes[k]? = some sh → shMatches tok sh = false) →
      (goListField tok items shapes)[j]? = some (s0.withTf (listFieldTF items)) ∧
      (∀ k, k ≠ j → (goListField tok items shapes)[k]? = shapes[k]?) := by
  intro shapes
  induction shapes with
  | nil => intro j s0 hj; simp at hj
  | cons sh rest ih =>
    intro j s0 hj hmatch hbefore
    cases j with
    | zero =>
      simp only [List.getElem?_cons_zero, Option.some.injEq] at hj
      subst hj
      rw [goListField_match tok items sh rest hmatch]
      refine ⟨by simp, fun k hk => ?_⟩
      cases k with
      | zero => exact absurd rfl hk
      | succ k' => simp
    | succ j' =>
      have hsh : shMatches tok sh = false :=
        hbefore 0 (Nat.succ_pos j') sh (by simp)
      rw [goListField_skip tok items sh rest hsh]
      simp only [List.getElem?_cons_succ] at hj
      have hbefore' : ∀ k, k < j' → ∀ s, rest[k]? = some s → shMatches tok s = false :=
        fun k hk s hks => hbefore (k + 1) (Nat.succ_lt_succ hk) s (by simpa using hks)
      obtain ⟨h1, h2⟩ := ih j' s0 hj hmatch hbefore'
      refine ⟨by simpa using h1, fun k hk => ?_⟩
      cases k with
      | zero => simp
      | succ k' =>
        have hne : k' ≠ j' := fun he => hk (by rw [he])
        simpa using h2 k' hne

theorem goListField_at_most_one (tok : String) (items : List Value) :
    ∀ shapes : List Shape,
      goListField tok items shapes = shapes ∨
      ∃ j s0, shapes[j]? = some s0 ∧ shMatches tok s0 = true ∧
        (∀ k, k < j → ∀ sh, shapes[k]? = some sh → shMatches tok sh = false) ∧
        goListField tok items shapes = shapes.set j (s0.withTf (listFieldTF items)) := by
  intro shapes
  induction shapes with
  | nil => left; rfl
  | cons sh rest ih =>
    by_cases h : shMatches tok sh = true
    · right
      refine ⟨0, sh, by simp, h, fun k hk => absurd hk (Nat.not_lt_zero k), ?_⟩
      rw [goListField_match tok items sh rest h]; simp
    · rw [goListField_skip tok items sh rest (by simpa using h)]
      rcases ih with h1 | ⟨j, s0, hj, hm, hbef, h2⟩
      · left; rw [h1]
      · right
        refine ⟨j + 1, s0, by simpa using hj, hm, fun k hk s hs => ?_, by rw [h2]; simp⟩
        cases k with
        | zero =>
          simp only [List.getElem?_cons_zero, Option.some.injEq] at hs
          subst hs
          simpa using h
        | succ k' =>
          exact hbef k' (Nat.lt_of_succ_lt_succ hk) s (by simpa using hs)

/-! ## Lemmas about table-field population -/

theorem goTableField_step_match (tok : String) (grid : List (List Value))
    (t : Table) (rest : List Shape)
    (h : (tableHasTok tok t && !grid.isEmpty) = true) :
    goTableField tok grid (Shape.table t :: rest) =
      Shape.table (fillTable tok grid t) :: rest := by
  conv_lhs => rw [goTableField]
  simp [Shape.table?, h]

theorem goTableField_step_skip (tok : String) (grid : List (List Value))
    (sh : Shape) (rest : List Shape)
    (h : ∀ t, sh = Shape.table t → (tableHasTok tok t && !grid.isEmpty) = false) :
    goTableField tok grid (sh :: rest) = sh :: goTableField tok grid rest := by
  conv_lhs => rw [goTableField]
  cases htb : sh.table? with
  | none => simp [htb]
  | some t =>
    have hsh : sh = Shape.table t := by
      cases sh <;> simp [Shape.table?] at htb
      rw [htb]
    simp [htb, h t hsh]

theorem goTableField_at_most_one (tok : String) (grid : List (List Value)) :
    ∀ shapes : List Shape,
      goTableField tok grid shapes = shapes ∨
      ∃ j t, shapes[j]? = some (Shape.table t) ∧ tableHasTok tok t = true ∧
        (∀ k, k < j → ∀ t0, shapes[k]? = some (Shape.table t0) →
          (tableHasTok tok t0 && !grid.isEmpty) = false) ∧
        goTableField tok grid shapes =
          shapes.set j (Shape.table (fillTable tok grid t)) := by
  intro shapes
  induction shapes with
  | nil => left; rfl
  | cons sh rest ih =>
    by_cases hcase : ∃ t, sh = Shape.table t ∧ (tableHasTok tok t && !grid.isEmpty) = true
    · obtain ⟨t, rfl, hc⟩ := hcase
      right
      have hc2 : tableHasTok tok t = true := by
        cases hx : tableHasTok tok t
        · rw [hx] at hc; simp at hc
        · rfl
      refine ⟨0, t, by simp, hc2, fun k hk => absurd hk (Nat.not_lt_zero k), ?_⟩
      rw [goTableField_step_match tok grid t rest hc]
      simp
    · have hskip : goTableField tok grid (sh :: rest) = sh :: goTableField tok grid rest := by
        apply goTableField_step_skip
        intro t ht
        by_contra hne
        exact hcase ⟨t, ht, by cases hx : (tableHasTok tok t && !grid.isEmpty) <;> simp_all⟩
      rw [hskip]
      rcases ih with h1 | ⟨j, t2, hj, htk, hbef, h2⟩
      · left; rw [h1]
      · right
        refine ⟨j + 1, t2, by simpa using hj, htk, fun k hk t0 ht0 => ?_, by rw [h2]; simp⟩
        cases k with
        | zero =>
          simp only [List.getElem?_cons_zero, Option.some.injEq] at ht0
          by_contra hne
          exact hcase ⟨t0, ht0, by cases hx : (tableHasTok tok t0 && !grid.isEmpty) <;> simp_all⟩
        | succ k' =>
          exact hbef k' (Nat.lt_of_succ_lt_succ hk) t0 (by simpa using ht0)

theorem goTableField_empty_grid (tok : String) :
    ∀ shapes : List Shape, goTableField tok [] shapes = shapes := by
  intro shapes
  induction shapes with
  | nil => rfl
  | cons sh rest ih =>
    rw [goTableField_step_skip tok [] sh rest (fun t _ => by simp)]
    rw [ih]

theorem fillTable_length (tok : String) (grid : List (List Value)) (t : Table) :
    (fillTable tok grid t).length = t.length := by
  simp [fillTable, writeGrid, clearTok]

theorem fillTable_row (tok : String) (grid : List (List Value)) (t : Table)
    (r : Nat) (row : List String) (h : t[r]? = some row) :
    ∃ row', (fillTable tok grid t)[r]? = some row' ∧ row'.length = row.length ∧
      ∀ c cell, row[c]? = some cell →
        row'[c]? = some (gridCell grid tok r c cell) := by
  obtain ⟨hr, hrow⟩ := List.getElem?_eq_some_iff.mp h
  have hr2 : r < (fillTable tok grid t).length := by rw [fillTable_length]; exact hr
  refine ⟨(fillTable tok grid t)[r], List.getElem?_eq_getElem hr2, ?_, ?_⟩
  · subst hrow
    simp [fillTable, writeGrid, clearTok, List.getElem_mapIdx]
  · intro c cell hcell
    obtain ⟨hc, hcval⟩ := List.getElem?_eq_some_iff.mp hcell
    subst hrow hcval
    have hc2 : c < (fillTable tok grid t)[r].length := by
      simpa [fillTable, writeGrid, clearTok, List.getElem_mapIdx] using hc
    rw [List.getElem?_eq_getElem hc2]
    simp only [fillTable, writeGrid, clearTok, List.getElem_mapIdx, List.getElem_map]
    rfl

/-! ## Claim C7 -/

/-- Claim C7: table population never changes any table's dimensions, and
every cell after population is either untouched, or its original text
with the token cleared, or the stringified grid entry at exactly that
cell's own (row, column) position — so writes are bounded by the table's
original rows and per-row cells and grid rows/columns beyond those bounds
are silently dropped.  A falsy (empty) grid leaves the slide entirely
unchanged. -/
theorem c7_table_population_bounded (sl : Slide) (name : String)
    (grid : List (List Value)) (j : Nat) (t : Table)
    (hj : sl.shapes[j]? = some (Shape.table t)) :
    (grid = [] → populateTableField sl name grid = sl) ∧
    ∃ t' : Table, (populateTableField sl name grid).shapes[j]? = some (Shape.table t') ∧
      t'.length = t.length ∧
      ∀ (r : Nat) (row : List String), t[r]? = some row →
        ∃ row' : List String, t'[r]? = some row' ∧
        row'.length = row.length ∧
        ∀ (c : Nat) (cell : String), row[c]? = some cell →
          row'[c]? = some cell ∨
          row'[c]? = some (pyReplace cell (fieldToken name) "") ∨
          ∃ rd v, grid[r]? = some rd ∧ rd[c]? = some v ∧
            row'[c]? = some (pyStr v) := by
  constructor
  · intro hg
    subst hg
    show ({ sl with shapes := goTableField (fieldToken name) [] sl.shapes } : Slide) = sl
    rw [goTableField_empty_grid]
  · rcases goTableField_at_most_one (fieldToken name) grid sl.shapes with
      heq | ⟨j2, t2, hj2, _, _, heq⟩
    · refine ⟨t, ?_, rfl,
        fun r row hrow => ⟨row, hrow, rfl, fun c cell hcell => Or.inl hcell⟩⟩
      show (goTableField (fieldToken name) grid sl.shapes)[j]? = _
      rw [heq]; exact hj
    · by_cases hsame : j2 = j
      · subst hsame
        rw [hj] at hj2
        simp only [Option.some.injEq, Shape.table.injEq] at hj2
        subst hj2
        refine ⟨fillTable (fieldToken name) grid t, ?_, fillTable_length _ _ _, ?_⟩
        · show (goTableField (fieldToken name) grid sl.shapes)[j2]? = _
          rw [heq]
          exact List.getElem?_set_eq_of_lt _ (List.getElem?_eq_some_iff.mp hj).1
        · intro r row hrow
          obtain ⟨row', h1, h2, h3⟩ := fillTable_row (fieldToken name) grid t r row hrow
          refine ⟨row', h1, h2, fun c cell hcell => ?_⟩
          have hval := h3 c cell hcell
          unfold gridCell at hval
          cases hg : grid[r]? with
          | none => rw [hg] at hval; exact Or.inr (Or.inl hval)
          | some rd =>
            rw [hg] at hval
            have hval2 : row'[c]? = some (match rd[c]? with
                | some v => pyStr v
                | none => pyReplace cell (fieldToken name) "") := hval
            cases hv : rd[c]? with
            | none => rw [hv] at hval2; exact Or.inr (Or.inl hval2)
            | some v =>
              rw [hv] at hval2
              exact Or.inr (Or.inr ⟨rd, v, rfl, hv, hval2⟩)
      · refine ⟨t, ?_, rfl,
          fun r row hrow => ⟨row, hrow, rfl, fun c cell hcell => Or.inl hcell⟩⟩
        show (goTableField (fieldToken name) grid sl.shapes)[j]? = _
        rw [heq, List.getElem?_set_ne hsame]
        exact hj

theorem c7_table_population_bounded_witness :
    ∃ t' : Table,
      (populateTableField ⟨"L", [Shape.table [["\x7b\x7bg\x7d\x7d", "k"], ["x"]]], none⟩ "g"
        [[.str "A"], [.str "B", .str "C"], [.str "D"]]).shapes[0]? =
          some (Shape.table t') ∧ t'.length = 2 := by
  obtain ⟨-, t', h1, h2, -⟩ :=
    c7_table_population_bounded
      ⟨"L", [Shape.table [["\x7b\x7bg\x7d\x7d", "k"], ["x"]]], none⟩ "g"
      [[.str "A"], [.str "B", .str "C"], [.str "D"]] 0
      [["\x7b\x7bg\x7d\x7d", "k"], ["x"]] rfl
  exact ⟨t', h1, h2.trans rfl⟩

/-! ## Claim C6 -/

/-- Claim C6 (counterexample): list population with the empty item
sequence leaves the matched shape's text frame with one (empty)
paragraph, not `len(items) = 0` paragraphs, because `clear()` always
leaves a paragraph and the item loop never runs. -/
theorem c6_empty_items_counterexample :
    populateListField ⟨"L", [Shape.textBox ⟨[⟨"\x7b\x7bx\x7d\x7d: item", 0⟩]⟩], none⟩
        "x" [] =
      ⟨"L", [Shape.textBox ⟨[⟨"", 0⟩]⟩], none⟩ ∧
    ([(⟨"", 0⟩ : Para)] : List Para).length ≠ ([] : List Value).length :=
  ⟨rfl, by decide⟩

/-- Claim C6 (amended): for a nonempty item sequence, the first shape
whose text contains the token gets exactly `len(items)` paragraphs, the
`i`-th paragraph's text the stringified `i`-th item, every paragraph at
indent level `0`, and every other shape is untouched; for the empty
sequence the matched frame is merely cleared, keeping one empty
paragraph. -/
theorem c6_list_population_paragraphs (sl : Slide) (name : String)
    (items : List Value) (j : Nat) (s0 : Shape)
    (hj : sl.shapes[j]? = some s0)
    (hmatch : shMatches (fieldToken name) s0 = true)
    (hfirst : ∀ k, k < j → ∀ sh, sl.shapes[k]? = some sh →
      shMatches (fieldToken name) sh = false) :
    (populateListField sl name items).shapes[j]? =
      some (s0.withTf (listFieldTF items)) ∧
    (∀ k, k ≠ j → (populateListField sl name items).shapes[k]? = sl.shapes[k]?) ∧
    (items ≠ [] → (listFieldTF items).paras.length = items.length ∧
      ∀ (i : Nat) (vi : Value), items[i]? = some vi →
        (listFieldTF items).paras[i]? = some ⟨pyStr vi, 0⟩) ∧
    (items = [] → listFieldTF items = TextFrame.clearTF) := by
  obtain ⟨h1, h2⟩ :=
    goListField_spec (fieldToken name) items sl.shapes j s0 hj hmatch hfirst
  refine ⟨h1, h2, fun hne => ?_, fun he => by rw [he]; rfl⟩
  cases items with
  | nil => exact absurd rfl hne
  | cons v vs =>
    refine ⟨by simp [listFieldTF], fun i vi hvi => ?_⟩
    show ((v :: vs).map (fun w => Para.mk (pyStr w) 0))[i]? = _
    rw [List.getElem?_map, hvi]
    rfl

theorem c6_list_population_paragraphs_witness :
    (populateListField
        ⟨"L", [Shape.picture "img", Shape.textBox ⟨[⟨"\x7b\x7bb\x7d\x7d here", 0⟩]⟩], none⟩
        "b" [.str "one", .int 2]).shapes[1]? =
      some (Shape.textBox ⟨[⟨"one", 0⟩, ⟨"2", 0⟩]⟩) ∧
    (populateListField
        ⟨"L", [Shape.picture "img", Shape.textBox ⟨[⟨"\x7b\x7bb\x7d\x7d here", 0⟩]⟩], none⟩
        "b" [.str "one", .int 2]).shapes[0]? = some (Shape.picture "img") := by
  obtain ⟨h1, h2, h3, -⟩ :=
    c6_list_population_paragraphs
      ⟨"L", [Shape.picture "img", Shape.textBox ⟨[⟨"\x7b\x7bb\x7d\x7d here", 0⟩]⟩], none⟩
      "b" [.str "one", .int 2] 1 (Shape.textBox ⟨[⟨"\x7b\x7bb\x7d\x7d here", 0⟩]⟩)
      rfl (by decide)
      (fun k hk sh hsh => by
        have hk0 : k = 0 := by omega
        subst hk0
        simp only [List.getElem?_cons_zero, Option.some.injEq] at hsh
        subst hsh
        decide)
  exact ⟨h1, by rw [h2 0 (by decide)]; rfl⟩

/-! ## Claim C5 -/

/-- Claim C5 (counterexample): a text-typed field is populated into EVERY
shape whose text holds the token — `_replace_text_in_slide` iterates all
shapes with no early exit — so with two shapes both holding `((x))` both
are rewritten, contradicting "population modifies at most one shape per
field". -/
theorem c5_text_replacement_fans_out :
    populateSlide
        ⟨"L", [Shape.textBox ⟨[⟨"\x7b\x7bx\x7d\x7d", 0⟩]⟩,
               Shape.textBox ⟨[⟨"\x7b\x7bx\x7d\x7d", 0⟩]⟩], none⟩
        [("x", .str "v")] (Json.obj (.cons "slide_type" (.str "a") .nil)) =
      .ok ⟨"L", [Shape.textBox ⟨[⟨"v", 0⟩]⟩, Shape.textBox ⟨[⟨"v", 0⟩]⟩], none⟩ ∧
    Shape.textBox (TextFrame.mk [⟨"v", 0⟩]) ≠
      Shape.textBox (TextFrame.mk [⟨"\x7b\x7bx\x7d\x7d", 0⟩]) :=
  ⟨rfl, by decide⟩

/-- Claim C5 (amended): list- and table-typed fields populate at most one
shape — the first shape in slide shape order whose text frame
(respectively whose table) contains the token, every earlier shape
failing the population guard — and every other shape keeps its text
unchanged; text-typed fields instead apply the token replacement to
every shape and every table cell. -/
theorem c5_population_shape_discipline (sl : Slide) (name : String)
    (items : List Value) (grid : List (List Value)) (val : String) :
    (populateListField sl name items = sl ∨
      ∃ (j : Nat) (s0 : Shape), sl.shapes[j]? = some s0 ∧
        shMatches (fieldToken name) s0 = true ∧
        (∀ k, k < j → ∀ sh, sl.shapes[k]? = some sh →
          shMatches (fieldToken name) sh = false) ∧
        (populateListField sl name items).shapes =
          sl.shapes.set j (s0.withTf (listFieldTF items))) ∧
    (populateTableField sl name grid = sl ∨
      ∃ (j : Nat) (t : Table), sl.shapes[j]? = some (Shape.table t) ∧
        tableHasTok (fieldToken name) t = true ∧
        (∀ k, k < j → ∀ t0, sl.shapes[k]? = some (Shape.table t0) →
          (tableHasTok (fieldToken name) t0 && !grid.isEmpty) = false) ∧
        (populateTableField sl name grid).shapes =
          sl.shapes.set j (Shape.table (fillTable (fieldToken name) grid t))) ∧
    (∀ k : Nat, (replaceTextInSlide sl (fieldToken name) val).shapes[k]? =
      (sl.shapes[k]?).map (replaceShape (fieldToken name) val)) := by
  refine ⟨?_, ?_, fun k => ?_⟩
  · rcases goListField_at_most_one (fieldToken name) items sl.shapes with
      h | ⟨j, s0, hj, hm, hbef, h⟩
    · left
      show ({ sl with shapes := goListField (fieldToken name) items sl.shapes } : Slide) = sl
      rw [h]
    · right; exact ⟨j, s0, hj, hm, hbef, h⟩
  · rcases goTableField_at_most_one (fieldToken name) grid sl.shapes with
      h | ⟨j, t, hj, htk, hbef, h⟩
    · left
      show ({ sl with shapes := goTableField (fieldToken name) grid sl.shapes } : Slide) = sl
      rw [h]
    · right; exact ⟨j, t, hj, htk, hbef, h⟩
  · show (sl.shapes.map (replaceShape (fieldToken name) val))[k]? = _
    rw [List.getElem?_map]

/-! ## Lemmas about the selector -/

theorem exMapM_ok_of_all {α β : Type} (f : α → Except GenError β) (g : α → β) :
    ∀ l : List α, (∀ a ∈ l, f a = .ok (g a)) → exMapM f l = .ok (l.map g) := by
  intro l h
  induction l with
  | nil => rfl
  | cons a tl ih =>
    have ha : f a = .ok (g a) := h a (List.mem_cons_self a tl)
    have htl := ih (fun x hx => h x (List.mem_cons_of_mem a hx))
    rw [exMapM, ha, htl]
    rfl

theorem selScan_spec : ∀ (l : List (CatEntry × Int)) (c0 : CatEntry) (s0 : Int),
    (selScan l (some c0, s0) = (some c0, s0) ∧ ∀ p ∈ l, p.2 ≤ s0) ∨
    (∃ (i : Nat) (hi : i < l.length),
      selScan l (some c0, s0) = (some (l[i]).1, (l[i]).2) ∧
      s0 < (l[i]).2 ∧
      (∀ (j : Nat) (hj : j < l.length), (l[j]).2 ≤ (l[i]).2) ∧
      (∀ (j : Nat) (hj : j < l.length), j < i → (l[j]).2 < (l[i]).2)) := by
  intro l
  induction l with
  | nil => intro c0 s0; left; exact ⟨rfl, by simp⟩
  | cons p rest ih =>
    intro c0 s0
    by_cases hgt : s0 < p.2
    · have hstep : selScan (p :: rest) (some c0, s0) = selScan rest (some p.1, p.2) := by
        rw [selScan, if_pos hgt]
      rcases ih p.1 p.2 with ⟨hval, hall⟩ | ⟨i', hi', hval, hlt, hmax, hfirst⟩
      · right
        refine ⟨0, by simp, by rw [hstep, hval]; rfl, hgt, ?_, ?_⟩
        · intro j hj
          cases j with
          | zero => exact le_refl _
          | succ j' =>
            simp only [List.getElem_cons_succ, List.getElem_cons_zero]
            exact hall _ (rest.getElem_mem _)
        · intro j hj hj0
          exact absurd hj0 (Nat.not_lt_zero j)
      · right
        refine ⟨i' + 1, Nat.succ_lt_succ hi', by rw [hstep]; simpa using hval, ?_, ?_, ?_⟩
        · simpa using lt_trans hgt hlt
        · intro j hj
          cases j with
          | zero => simpa using le_of_lt hlt
          | succ j' => simpa using hmax j' (Nat.lt_of_succ_lt_succ hj)
        · intro j hj hji
          cases j with
          | zero => simpa using hlt
          | succ j' => simpa using hfirst j' (Nat.lt_of_succ_lt_succ hj) (Nat.lt_of_succ_lt_succ hji)
    · have hstep : selScan (p :: rest) (some c0, s0) = selScan rest (some c0, s0) := by
        rw [selScan, if_neg hgt]
      rcases ih c0 s0 with ⟨hval, hall⟩ | ⟨i', hi', hval, hlt, hmax, hfirst⟩
      · left
        refine ⟨by rw [hstep, hval], fun q hq => ?_⟩
        rcases List.mem_cons.mp hq with hq | hq
        · rw [hq]; exact le_of_not_lt hgt
        · exact hall q hq
      · right
        refine ⟨i' + 1, Nat.succ_lt_succ hi', by rw [hstep]; simpa using hval, ?_, ?_, ?_⟩
        · simpa using hlt
        · intro j hj
          cases j with
          | zero => simpa using le_trans (le_of_not_lt hgt) (le_of_lt hlt)
          | succ j' => simpa using hmax j' (Nat.lt_of_succ_lt_succ hj)
        · intro j hj hji
          cases j with
          | zero => simpa using lt_of_le_of_lt (le_of_not_lt hgt) hlt
          | succ j' => simpa using hfirst j' (Nat.lt_of_succ_lt_succ hj) (Nat.lt_of_succ_lt_succ hji)

/-! ## Claim C3 -/

/-- Claim C3: with two or more candidates of the requested type and any
requested field-name set, the selector returns a candidate whose declared
placeholder names have the largest intersection cardinality with the
requested names, and among candidates sharing that maximal score it
returns the one earliest in template (bucket) order.  The result is a
function of the candidate bucket and the requested field names alone
(`selectEntry` takes exactly those two arguments), hence deterministic
across runs. -/
theorem c3_selector_best_match_first (cands : List CatEntry) (req : List String)
    (hlen : 2 ≤ cands.length)
    (hok : ∀ c ∈ cands, ∃ ks, placeholderKeys c.metadata = .ok ks) :
    ∃ (i : Nat) (hi : i < cands.length),
      selectEntry cands req = .ok cands[i] ∧
      (∀ (j : Nat) (hj : j < cands.length),
        candScore req cands[j] ≤ candScore req cands[i]) ∧
      (∀ (j : Nat) (hj : j < cands.length),
        candScore req cands[j] = candScore req cands[i] → i ≤ j) := by
  match cands, hlen, hok with
  | c1 :: c2 :: cr, _, hok =>
    have hmapM : exMapM (scoreOne req) (c1 :: c2 :: cr) =
        .ok ((c1 :: c2 :: cr).map
          (fun c => (c, (candScore req c : Int)))) := by
      apply exMapM_ok_of_all
      intro a ha
      obtain ⟨ks, hks⟩ := hok a ha
      have hkd : phKeysD a.metadata = ks := by rw [phKeysD, hks]
      rw [scoreOne, hks, candScore, hkd]
    have hsel : selectEntry (c1 :: c2 :: cr) req =
        match (selScan ((c1 :: c2 :: cr).map
            (fun c => (c, (candScore req c : Int)))) (none, -1)).1 with
        | some c => .ok c
        | none => .ok c1 := by
      show (match exMapM (scoreOne req) (c1 :: c2 :: cr) with
        | Except.error e => Except.error e
        | Except.ok scored =>
          match (selScan scored (none, -1)).1 with
          | some c => Except.ok c
          | none => Except.ok c1) = _
      rw [hmapM]
    have hstep : selScan ((c1 :: c2 :: cr).map
        (fun c => (c, (candScore req c : Int)))) (none, -1) =
        selScan ((c2 :: cr).map (fun c => (c, (candScore req c : Int))))
          (some c1, (candScore req c1 : Int)) := by
      show selScan ((c1, (candScore req c1 : Int)) ::
        (c2 :: cr).map (fun c => (c, (candScore req c : Int)))) (none, -1) = _
      rw [selScan]
      have hpos : ((-1 : Int) < (candScore req c1 : Int)) := by omega
      rw [if_pos hpos]
    rcases selScan_spec ((c2 :: cr).map (fun c => (c, (candScore req c : Int))))
        c1 (candScore req c1 : Int) with
      ⟨hval, hall⟩ | ⟨i', hi', hval, hlt, hmax, hfirst⟩
    · refine ⟨0, by simp, ?_, ?_, ?_⟩
      · rw [hsel, hstep, hval]
        rfl
      · intro j hj
        cases j with
        | zero => exact le_refl _
        | succ j' =>
          have hj' : j' < (c2 :: cr).length := Nat.lt_of_succ_lt_succ hj
          have hmem : ((c2 :: cr)[j'], (candScore req ((c2 :: cr)[j']) : Int)) ∈
              (c2 :: cr).map (fun c => (c, (candScore req c : Int))) := by
            exact List.mem_map.mpr ⟨(c2 :: cr)[j'], (c2 :: cr).getElem_mem hj', rfl⟩
          have hle : (candScore req ((c2 :: cr)[j']) : Int) ≤ (candScore req c1 : Int) :=
            hall _ hmem
          simp only [List.getElem_cons_succ, List.getElem_cons_zero]
          exact_mod_cast hle
      · intro j hj _
        exact Nat.zero_le j
    · have hgetm : ∀ (k : Nat)
          (hk1 : k < ((c2 :: cr).map (fun c => (c, (candScore req c : Int)))).length)
          (hk2 : k < (c2 :: cr).length),
          ((c2 :: cr).map (fun c => (c, (candScore req c : Int))))[k] =
            ((c2 :: cr)[k], (candScore req ((c2 :: cr)[k]) : Int)) := by
        intro k hk1 hk2
        exact List.getElem_map (fun c => (c, (candScore req c : Int)))
      have hilen : i' < (c2 :: cr).length := by simpa using hi'
      refine ⟨i' + 1, by simpa using Nat.succ_lt_succ hilen, ?_, ?_, ?_⟩
      · rw [hsel, hstep, hval, hgetm i' hi' hilen]
        rfl
      · intro j hj
        rw [hgetm i' hi' hilen] at hmax hlt
        cases j with
        | zero =>
          have hlt2 : (candScore req c1 : Int) <
              (candScore req ((c2 :: cr)[i']) : Int) := hlt
          simp only [List.getElem_cons_succ, List.getElem_cons_zero]
          exact le_of_lt (by exact_mod_cast hlt2)
        | succ j' =>
          have hj' : j' < (c2 :: cr).length := Nat.lt_of_succ_lt_succ hj
          have hjm : j' < ((c2 :: cr).map
              (fun c => (c, (candScore req c : Int)))).length := by simpa using hj'
          have hle := hmax j' hjm
          rw [hgetm j' hjm hj'] at hle
          have hle2 : (candScore req ((c2 :: cr)[j']) : Int) ≤
              (candScore req ((c2 :: cr)[i']) : Int) := hle
          simp only [List.getElem_cons_succ]
          exact_mod_cast hle2
      · intro j hj htie
        rw [hgetm i' hi' hilen] at hlt hfirst
        by_contra hnle
        have hji : j < i' + 1 := by omega
        cases j with
        | zero =>
          simp only [List.getElem_cons_succ, List.getElem_cons_zero] at htie
          have hc1lt : (candScore req c1 : Int) <
              (candScore req ((c2 :: cr)[i']) : Int) := hlt
          omega
        | succ j' =>
          have hj' : j' < (c2 :: cr).length := Nat.lt_of_succ_lt_succ hj
          have hjm : j' < ((c2 :: cr).map
              (fun c => (c, (candScore req c : Int)))).length := by simpa using hj'
          have hstrict := hfirst j' hjm (Nat.lt_of_succ_lt_succ hji)
          rw [hgetm j' hjm hj'] at hstrict
          simp only [List.getElem_cons_succ] at htie
          have hjlt : (candScore req ((c2 :: cr)[j']) : Int) <
              (candScore req ((c2 :: cr)[i']) : Int) := hstrict
          omega

theorem c3_selector_best_match_first_witness :
    ∃ (i : Nat) (hi : i < 2),
      selectEntry
        [⟨0, ⟨"L", [], none⟩, Json.obj (.cons "slide_type" (.str "content")
          (.cons "placeholders" (.obj (.cons "heading" (.obj .nil)
            (.cons "body" (.obj .nil) .nil))) .nil))⟩,
         ⟨1, ⟨"L", [], none⟩, Json.obj (.cons "slide_type" (.str "content")
          (.cons "placeholders" (.obj (.cons "heading" (.obj .nil)
            (.cons "bullet_points" (.obj .nil) .nil))) .nil))⟩]
        ["heading", "bullet_points"] =
      .ok ([⟨0, ⟨"L", [], none⟩, Json.obj (.cons "slide_type" (.str "content")
          (.cons "placeholders" (.obj (.cons "heading" (.obj .nil)
            (.cons "body" (.obj .nil) .nil))) .nil))⟩,
         ⟨1, ⟨"L", [], none⟩, Json.obj (.cons "slide_type" (.str "content")
          (.cons "placeholders" (.obj (.cons "heading" (.obj .nil)
            (.cons "bullet_points" (.obj .nil) .nil))) .nil))⟩] : List CatEntry)[i] := by
  obtain ⟨i, hi, hres, -, -⟩ :=
    c3_selector_best_match_first
      [⟨0, ⟨"L", [], none⟩, Json.obj (.cons "slide_type" (.str "content")
        (.cons "placeholders" (.obj (.cons "heading" (.obj .nil)
          (.cons "body" (.obj .nil) .nil))) .nil))⟩,
       ⟨1, ⟨"L", [], none⟩, Json.obj (.cons "slide_type" (.str "content")
        (.cons "placeholders" (.obj (.cons "heading" (.obj .nil)
          (.cons "bullet_points" (.obj .nil) .nil))) .nil))⟩]
      ["heading", "bullet_points"]
      (by decide)
      (by
        intro c hc
        rcases List.mem_cons.mp hc with h | hc2
        · exact ⟨["heading", "body"], by rw [h]; rfl⟩
        · rcases List.mem_cons.mp hc2 with h | h
          · exact ⟨["heading", "bullet_points"], by rw [h]; rfl⟩
          · simp at h)
  exact ⟨i, by simpa using hi, hres⟩

/-! ## Character-level lemmas for the serialization round trip -/

theorem charValidNat (c : Char) :
    c.toNat < 55296 ∨ (57343 < c.toNat ∧ c.toNat < 1114112) := by
  have h := c.valid
  simp [UInt32.isValidChar, Nat.isValidChar] at h
  rcases h with h | h
  · left; exact h
  · right; exact h

theorem charOfNat_toNat {n : Nat} (h : n.isValidChar) : (Char.ofNat n).toNat = n := by
  unfold Char.ofNat
  rw [dif_pos h]
  rfl

theorem hexVal_hexDig (n : Nat) (h : n < 16) : hexVal (hexDig n) = some n := by
  interval_cases n <;> decide

theorem parseHex4_digits (n : Nat) (h : n < 65536) (rest : List Char) :
    parseHex4 (hexDig (n / 4096 % 16) :: hexDig (n / 256 % 16) ::
      hexDig (n / 16 % 16) :: hexDig (n % 16) :: rest) = some (n, rest) := by
  rw [parseHex4]
  rw [hexVal_hexDig _ (Nat.mod_lt _ (by omega)), hexVal_hexDig _ (Nat.mod_lt _ (by omega)),
    hexVal_hexDig _ (Nat.mod_lt _ (by omega)), hexVal_hexDig _ (Nat.mod_lt _ (by omega))]
  have harith : n / 4096 % 16 * 4096 + n / 256 % 16 * 256 + n / 16 % 16 * 16 + n % 16 = n := by
    omega
  show some (n / 4096 % 16 * 4096 + n / 256 % 16 * 256 + n / 16 % 16 * 16 + n % 16, rest) =
    some (n, rest)
  rw [harith]

theorem hexDig_ascii (m : Nat) (h : m < 16) : (hexDig m).toNat ≤ 126 := by
  interval_cases m <;> decide

theorem uEsc4_ascii (n : Nat) : ∀ x ∈ uEsc4 n, x.toNat ≤ 126 := by
  intro x hx
  rw [uEsc4] at hx
  simp only [List.mem_cons, List.not_mem_nil, or_false] at hx
  rcases hx with rfl | rfl | rfl | rfl | rfl | rfl
  · decide
  · decide
  · exact hexDig_ascii _ (Nat.mod_lt _ (by omega))
  · exact hexDig_ascii _ (Nat.mod_lt _ (by omega))
  · exact hexDig_ascii _ (Nat.mod_lt _ (by omega))
  · exact hexDig_ascii _ (Nat.mod_lt _ (by omega))

theorem escChar_ascii (c : Char) : ∀ x ∈ escChar c, x.toNat ≤ 126 := by
  intro x hx
  rw [escChar] at hx
  split_ifs at hx with h1 h2 h3 h4 h5 h6 h7 h8 h9 <;>
    (try simp only [List.mem_cons, List.not_mem_nil, or_false, List.mem_append] at hx)
  · rcases hx with rfl | rfl
    · decide
    · decide
  · rcases hx with rfl | rfl
    · decide
    · decide
  · rcases hx with rfl | rfl
    · decide
    · decide
  · rcases hx with rfl | rfl
    · decide
    · decide
  · rcases hx with rfl | rfl
    · decide
    · decide
  · rcases hx with rfl | rfl
    · decide
    · decide
  · rcases hx with rfl | rfl
    · decide
    · decide
  · exact uEsc4_ascii _ _ hx
  · rcases hx with h | h
    · exact uEsc4_ascii _ _ h
    · exact uEsc4_ascii _ _ h
  · rcases hx with rfl
    omega

theorem escChar_ne_nil (c : Char) : 1 ≤ (escChar c).length := by
  rw [escChar]
  split_ifs <;> simp [uEsc4]

theorem length_le_flatMap_escChar (l : List Char) :
    l.length ≤ (l.flatMap escChar).length := by
  induction l with
  | nil => simp
  | cons c cs ih =>
    rw [List.flatMap_cons, List.length_append, List.length_cons]
    have := escChar_ne_nil c
    omega

theorem skipWs_cons_not_ws (c : Char) (cs : List Char) (h : isJsonWs c = false) :
    skipWs (c :: cs) = c :: cs := by
  simp [skipWs, List.dropWhile_cons, h]

theorem parseStrF_u_step (f : Nat) (tail : List Char) :
    parseStrF (f + 1) (bslashC :: 'u' :: tail) =
      (match parseHex4 tail with
       | none => none
       | some (n, rest3) =>
         if n < 55296 ∨ 57343 < n then
           (parseStrF f rest3).map (fun p => (Char.ofNat n :: p.1, p.2))
         else if n ≤ 56319 then
           match rest3 with
           | b1 :: u1 :: rest4 =>
             if b1 = bslashC ∧ u1 = 'u' then
               match parseHex4 rest4 with
               | some (m, rest5) =>
                 if 56320 ≤ m ∧ m ≤ 57343 then
                   (parseStrF f rest5).map
                     (fun p => (Char.ofNat (65536 + (n - 55296) * 1024 + (m - 56320)) :: p.1, p.2))
                 else none
               | none => none
             else none
           | _ => none
         else none) := by
  rw [parseStrF]
  rw [if_neg (by decide : ¬(bslashC = quoteC)), if_pos rfl]
  rw [if_neg (by decide : ¬('u' = quoteC)), if_neg (by decide : ¬('u' = bslashC)),
    if_neg (by decide : ¬('u' = '/')), if_neg (by decide : ¬('u' = 'b')),
    if_neg (by decide : ¬('u' = 'f')), if_neg (by decide : ¬('u' = 'n')),
    if_neg (by decide : ¬('u' = 'r')), if_neg (by decide : ¬('u' = 't')), if_pos rfl]

theorem parseStrF_escape (l : List Char) : ∀ (f : Nat) (rest : List Char), l.length < f →
    parseStrF f (l.flatMap escChar ++ quoteC :: rest) = some (l, rest) := by
  induction l with
  | nil =>
    intro f rest hf
    cases f with
    | zero => omega
    | succ f' =>
      show parseStrF (f' + 1) (quoteC :: rest) = some ([], rest)
      simp +decide [parseStrF]
  | cons c cs ih =>
    intro f rest hf
    cases f with
    | zero => omega
    | succ f' =>
      have hcs : cs.length < f' := by
        simp only [List.length_cons] at hf
        omega
      have hih := ih f' rest hcs
      rw [List.flatMap_cons, List.append_assoc, escChar]
      by_cases h1 : c = quoteC
      · subst h1
        rw [if_pos rfl]
        simp +decide [parseStrF, hih]
      · rw [if_neg h1]
        by_cases h2 : c = bslashC
        · subst h2
          rw [if_pos rfl]
          simp +decide [parseStrF, hih]
        · rw [if_neg h2]
          by_cases h3 : c = Char.ofNat 10
          · subst h3
            rw [if_pos rfl]
            simp +decide [parseStrF, hih]
          · rw [if_neg h3]
            by_cases h4 : c = Char.ofNat 9
            · subst h4
              rw [if_pos rfl]
              simp +decide [parseStrF, hih]
            · rw [if_neg h4]
              by_cases h5 : c = Char.ofNat 13
              · subst h5
                rw [if_pos rfl]
                simp +decide [parseStrF, hih]
              · rw [if_neg h5]
                by_cases h6 : c = Char.ofNat 8
                · subst h6
                  rw [if_pos rfl]
                  simp +decide [parseStrF, hih]
                · rw [if_neg h6]
                  by_cases h7 : c = Char.ofNat 12
                  · subst h7
                    rw [if_pos rfl]
                    simp +decide [parseStrF, hih]
                  · rw [if_neg h7]
                    by_cases h8 : c.toNat < 32 ∨ 126 < c.toNat
                    · rw [if_pos h8]
                      by_cases h9 : c.toNat ≤ 65535
                      · rw [if_pos h9]
                        rw [uEsc4]
                        simp only [List.cons_append, List.nil_append]
                        rw [parseStrF_u_step]
                        rw [parseHex4_digits c.toNat (by omega)]
                        try dsimp only
                        have hval : c.toNat < 55296 ∨ 57343 < c.toNat := by
                          rcases charValidNat c with h | h
                          · left; exact h
                          · right; exact h.1
                        rw [if_pos hval, hih]
                        simp [Char.ofNat_toNat]
                      · rw [if_neg h9]
                        have hcap : c.toNat < 1114112 := by
                          rcases charValidNat c with h | h
                          · omega
                          · exact h.2
                        rw [uEsc4, uEsc4]
                        simp only [List.cons_append, List.nil_append, List.append_assoc]
                        rw [parseStrF_u_step]
                        rw [parseHex4_digits (55296 + (c.toNat - 65536) / 1024) (by omega)]
                        try dsimp only
                        rw [if_neg (by omega : ¬(55296 + (c.toNat - 65536) / 1024 < 55296 ∨
                            57343 < 55296 + (c.toNat - 65536) / 1024))]
                        rw [if_pos (by omega : 55296 + (c.toNat - 65536) / 1024 ≤ 56319)]
                        try dsimp only
                        rw [if_pos (⟨rfl, rfl⟩ : bslashC = bslashC ∧ 'u' = 'u')]
                        rw [parseHex4_digits (56320 + (c.toNat - 65536) % 1024) (by omega)]
                        try dsimp only
                        rw [if_pos (by omega : 56320 ≤ 56320 + (c.toNat - 65536) % 1024 ∧
                          56320 + (c.toNat - 65536) % 1024 ≤ 57343)]
                        rw [hih]
                        have harith : 65536 + (55296 + (c.toNat - 65536) / 1024 - 55296) * 1024 +
                            (56320 + (c.toNat - 65536) % 1024 - 56320) = c.toNat := by
                          omega
                        rw [harith]
                        simp [Char.ofNat_toNat]
                    · rw [if_neg h8]
                      push_neg at h8
                      simp only [List.cons_append, List.nil_append]
                      have h32 : ¬(c.toNat < 32) := by omega
                      simp [parseStrF, h1, h2, h32, hih]

theorem szV_pos (v : Json) : 1 ≤ szV v := by
  cases v with
  | str s => exact le_refl 1
  | num r => exact le_refl 1
  | bool b => exact le_refl 1
  | null => exact le_refl 1
  | arr es => exact le_refl 1
  | obj ms =>
    cases ms with
    | nil => exact le_refl 1
    | cons k v tl => rw [szV]; omega

theorem szM_pos (ms : JObj) : 1 ≤ szM ms := by
  cases ms with
  | nil => exact le_refl 1
  | cons k v tl => rw [szM]; omega

theorem dumpStr_len (k : String) : 2 ≤ (dumpStr k).length := by
  rw [dumpStr]
  simp

theorem JObj.find_eq_none : ∀ (ms : JObj) (k : String), k ∉ JObj.keys ms → ms.find k = none
  | .nil, _, _ => rfl
  | .cons k2 v tl, k, h => by
    rw [JObj.find]
    rw [JObj.keys] at h
    simp only [List.mem_cons] at h
    push_neg at h
    rw [if_neg (fun he => h.1 he.symm)]
    exact JObj.find_eq_none tl k h.2

theorem consMemPy_not_mem (k : String) (v : Json) (ms : JObj)
    (h : k ∉ JObj.keys ms) : consMemPy k v ms = .cons k v ms := by
  rw [consMemPy, JObj.find_eq_none ms k h]

theorem skipWs_space (X : List Char) : skipWs (' ' :: X) = skipWs X := by
  simp [skipWs, List.dropWhile_cons, (by decide : isJsonWs ' ' = true)]

theorem skipWs_dumpV (v : Json) (hok : mdOkV v = true) (X : List Char) :
    skipWs (dumpV v ++ X) = dumpV v ++ X := by
  cases v with
  | str s =>
    show skipWs ((quoteC :: (s.data.flatMap escChar ++ [quoteC])) ++ X) = _
    rw [List.cons_append]
    exact skipWs_cons_not_ws _ _ (by decide)
  | num r => rw [mdOkV] at hok; simp at hok
  | bool b => rw [mdOkV] at hok; simp at hok
  | null => rw [mdOkV] at hok; simp at hok
  | arr es => rw [mdOkV] at hok; simp at hok
  | obj ms =>
    cases ms with
    | nil =>
      show skipWs ([lbraceC, rbraceC] ++ X) = _
      rw [List.cons_append]
      exact skipWs_cons_not_ws _ _ (by decide)
    | cons k v0 tl =>
      show skipWs ((lbraceC :: (dumpMems (.cons k v0 tl) ++ [rbraceC])) ++ X) = _
      rw [List.cons_append]
      exact skipWs_cons_not_ws _ _ (by decide)

theorem dumpMems_cons_shape (k : String) (v0 : Json) (tl : JObj) :
    dumpMems (.cons k v0 tl) =
      dumpStr k ++ ':' :: ' ' :: dumpV v0 ++
        (match tl with
         | .nil => []
         | .cons k2 v2 tl2 => ',' :: ' ' :: dumpMems (.cons k2 v2 tl2)) := by
  cases tl with
  | nil => rw [dumpMems]; simp
  | cons k2 v2 tl2 => rw [dumpMems]

theorem skipWs_dumpMems (k : String) (v : Json) (tl : JObj) (X : List Char) :
    skipWs (dumpMems (.cons k v tl) ++ X) = dumpMems (.cons k v tl) ++ X := by
  rw [dumpMems_cons_shape]
  simp only [dumpStr, List.cons_append, List.append_assoc]
  exact skipWs_cons_not_ws _ _ (by decide)

theorem parseStrF_escape_len (l : List Char) (rest : List Char) :
    parseStrF (l.flatMap escChar ++ quoteC :: rest).length
      (l.flatMap escChar ++ quoteC :: rest) = some (l, rest) := by
  apply parseStrF_escape
  rw [List.length_append]
  have := length_le_flatMap_escChar l
  simp only [List.length_cons]
  omega

theorem dumpMems_head (k : String) (v0 : Json) (tl : JObj) :
    ∃ Y, dumpMems (.cons k v0 tl) = quoteC :: Y := by
  cases tl with
  | nil =>
    exact ⟨_, by rw [dumpMems, dumpStr]; simp only [List.cons_append]; rfl⟩
  | cons k2 v2 tl2 =>
    exact ⟨_, by rw [dumpMems, dumpStr]; simp only [List.cons_append]; rfl⟩

theorem parse_dump_fuel : ∀ f : Nat,
    (∀ (v : Json) (rest : List Char), mdOkV v = true → szV v ≤ f →
      parseVal f (dumpV v ++ rest) = some (v, rest)) ∧
    (∀ (ms : JObj) (rest : List Char), mdOkM ms = true → (JObj.keys ms).Nodup →
      ms ≠ .nil → szM ms ≤ f →
      parseMems f (dumpMems ms ++ rbraceC :: rest) = some (.obj ms, rest)) := by
  intro f
  induction f with
  | zero =>
    constructor
    · intro v rest _ hsz
      have := szV_pos v
      omega
    · intro ms rest _ _ _ hsz
      have := szM_pos ms
      omega
  | succ f ih =>
    obtain ⟨ihV, ihM⟩ := ih
    constructor
    · intro v rest hok hsz
      cases v with
      | num r => rw [mdOkV] at hok; simp at hok
      | bool b => rw [mdOkV] at hok; simp at hok
      | null => rw [mdOkV] at hok; simp at hok
      | arr es => rw [mdOkV] at hok; simp at hok
      | str s =>
        show parseVal (f + 1) ((quoteC :: (s.data.flatMap escChar ++ [quoteC])) ++ rest) = _
        simp only [List.cons_append, List.append_assoc, List.singleton_append,
          List.nil_append]
        rw [parseVal, if_pos rfl, parseStrF_escape_len]
        rfl
      | obj ms =>
        rw [mdOkV] at hok
        rw [Bool.and_eq_true] at hok
        obtain ⟨hokM, hnd⟩ := hok
        have hnd2 : (JObj.keys ms).Nodup := of_decide_eq_true hnd
        cases ms with
        | nil =>
          show parseVal (f + 1) ([lbraceC, rbraceC] ++ rest) = _
          rw [List.cons_append, parseVal,
            if_neg (by decide : ¬(lbraceC = quoteC)), if_pos rfl,
            List.singleton_append, skipWs_cons_not_ws _ _ (by decide)]
          rfl
        | cons k v0 tl =>
          obtain ⟨Y, hY⟩ := dumpMems_head k v0 tl
          show parseVal (f + 1)
            ((lbraceC :: (dumpMems (JObj.cons k v0 tl) ++ [rbraceC])) ++ rest) = _
          rw [List.cons_append, List.append_assoc, List.singleton_append,
            parseVal, if_neg (by decide : ¬(lbraceC = quoteC)), if_pos rfl,
            hY, List.cons_append, skipWs_cons_not_ws _ _ (by decide)]
          show (if quoteC = rbraceC then some (Json.obj JObj.nil, Y ++ rbraceC :: rest)
            else parseMems f (quoteC :: (Y ++ rbraceC :: rest))) =
            some (Json.obj (JObj.cons k v0 tl), rest)
          rw [if_neg (by decide : ¬(quoteC = rbraceC)), ← List.cons_append, ← hY]
          exact ihM (JObj.cons k v0 tl) rest hokM hnd2
            (fun h => JObj.noConfusion h) (by rw [szV] at hsz; omega)
    · intro ms rest hok hnd hne hsz
      cases ms with
      | nil => exact absurd rfl hne
      | cons k v0 tl =>
        rw [mdOkM, Bool.and_eq_true] at hok
        obtain ⟨hokV, hokM⟩ := hok
        rw [JObj.keys, List.nodup_cons] at hnd
        obtain ⟨hknotin, hndtl⟩ := hnd
        have hszv : szV v0 ≤ f := by rw [szM] at hsz; omega
        cases tl with
        | nil =>
          rw [dumpMems, dumpStr]
          simp only [List.cons_append, List.append_assoc, List.singleton_append,
            List.nil_append]
          rw [parseMems, if_pos rfl, parseStrF_escape_len]
          dsimp only
          rw [skipWs_cons_not_ws _ _ (by decide : isJsonWs ':' = false)]
          dsimp only
          rw [if_pos rfl, skipWs_space, skipWs_dumpV v0 hokV,
            ihV v0 (rbraceC :: rest) hokV hszv]
          dsimp only
          rw [skipWs_cons_not_ws _ _ (by decide : isJsonWs rbraceC = false)]
          rfl
        | cons k2 v2 tl2 =>
          have hsztl : szM (.cons k2 v2 tl2) ≤ f := by rw [szM] at hsz; omega
          rw [dumpMems, dumpStr]
          simp only [List.cons_append, List.append_assoc, List.singleton_append,
            List.nil_append]
          rw [parseMems, if_pos rfl, parseStrF_escape_len]
          dsimp only
          rw [skipWs_cons_not_ws _ _ (by decide : isJsonWs ':' = false)]
          dsimp only
          rw [if_pos rfl, skipWs_space, skipWs_dumpV v0 hokV,
            ihV v0 (',' :: ' ' :: (dumpMems (.cons k2 v2 tl2) ++ rbraceC :: rest))
              hokV hszv]
          dsimp only
          rw [skipWs_cons_not_ws _ _ (by decide : isJsonWs ',' = false)]
          dsimp only
          rw [if_pos rfl, skipWs_space, skipWs_dumpMems k2 v2 tl2,
            ihM (.cons k2 v2 tl2) rest hokM hndtl
              (fun h => JObj.noConfusion h) hsztl]
          dsimp only
          rw [consMemPy_not_mem (String.mk k.data) v0 (JObj.cons k2 v2 tl2) hknotin]

mutual
theorem sz_le_dumpV : ∀ v : Json, szV v ≤ (dumpV v).length + 1
  | .str _ => by rw [szV]; omega
  | .num _ => by rw [szV]; omega
  | .bool _ => by rw [szV]; omega
  | .null => by rw [szV]; omega
  | .arr _ => by rw [szV]; omega
  | .obj .nil => by rw [szV]; omega
  | .obj (.cons k v tl) => by
      have h := sz_le_dumpM (.cons k v tl)
      rw [szV, dumpV]
      simp only [List.length_cons, List.length_append, List.length_nil]
      omega
theorem sz_le_dumpM : ∀ ms : JObj, szM ms ≤ (dumpMems ms).length + 1
  | .nil => by rw [szM, dumpMems]; omega
  | .cons k v .nil => by
      have hv := sz_le_dumpV v
      rw [szM, szM, dumpMems, dumpStr]
      simp only [List.length_append, List.length_cons, List.length_nil]
      omega
  | .cons k v (.cons k2 v2 tl2) => by
      have hv := sz_le_dumpV v
      have hm := sz_le_dumpM (.cons k2 v2 tl2)
      rw [szM, dumpMems, dumpStr]
      simp only [List.length_append, List.length_cons, List.length_nil]
      omega
end

theorem dumpStr_ascii (k : String) : ∀ c ∈ dumpStr k, c.toNat ≤ 126 := by
  intro c hc
  rw [dumpStr] at hc
  rcases List.mem_append.mp hc with hc1 | hc2
  · rcases List.mem_cons.mp hc1 with rfl | hc3
    · decide
    · obtain ⟨x, -, hcx⟩ := List.mem_flatMap.mp hc3
      exact escChar_ascii x c hcx
  · have := List.mem_singleton.mp hc2
    subst this
    decide

mutual
theorem dumpAsciiV : ∀ v : Json, mdOkV v = true → ∀ c ∈ dumpV v, c.toNat ≤ 126
  | .str s => by
      intro _ c hc
      rw [dumpV] at hc
      exact dumpStr_ascii s c hc
  | .num r => by intro h; rw [mdOkV] at h; simp at h
  | .bool b => by intro h; rw [mdOkV] at h; simp at h
  | .null => by intro h; rw [mdOkV] at h; simp at h
  | .arr es => by intro h; rw [mdOkV] at h; simp at h
  | .obj .nil => by
      intro _ c hc
      rw [dumpV] at hc
      rcases List.mem_cons.mp hc with rfl | hc2
      · decide
      · have := List.mem_singleton.mp hc2
        subst this
        decide
  | .obj (.cons k v tl) => by
      intro h c hc
      rw [mdOkV, Bool.and_eq_true] at h
      rw [dumpV] at hc
      rcases List.mem_cons.mp hc with rfl | hc2
      · decide
      rcases List.mem_append.mp hc2 with hc3 | hc4
      · exact dumpAsciiM (.cons k v tl) h.1 c hc3
      · have := List.mem_singleton.mp hc4
        subst this
        decide
theorem dumpAsciiM : ∀ ms : JObj, mdOkM ms = true → ∀ c ∈ dumpMems ms, c.toNat ≤ 126
  | .nil => by
      intro _ c hc
      rw [dumpMems] at hc
      simp at hc
  | .cons k v .nil => by
      intro h c hc
      rw [mdOkM, Bool.and_eq_true] at h
      rw [dumpMems] at hc
      rcases List.mem_append.mp hc with hc1 | hc2
      · exact dumpStr_ascii k c hc1
      rcases List.mem_cons.mp hc2 with rfl | hc3
      · decide
      rcases List.mem_cons.mp hc3 with rfl | hc4
      · decide
      · exact dumpAsciiV v h.1 c hc4
  | .cons k v (.cons k2 v2 tl2) => by
      intro h c hc
      rw [mdOkM, Bool.and_eq_true] at h
      rw [dumpMems] at hc
      rcases List.mem_append.mp hc with hc1 | hc2
      · rcases List.mem_append.mp hc1 with hc3 | hc4
        · exact dumpStr_ascii k c hc3
        rcases List.mem_cons.mp hc4 with rfl | hc5
        · decide
        rcases List.mem_cons.mp hc5 with rfl | hc6
        · decide
        · exact dumpAsciiV v h.1 c hc6
      rcases List.mem_cons.mp hc2 with rfl | hc7
      · decide
      rcases List.mem_cons.mp hc7 with rfl | hc8
      · decide
      · exact dumpAsciiM (.cons k2 v2 tl2) h.2 c hc8
end

theorem normChar_ascii (c : Char) (h : c.toNat ≤ 126) : normChar c = c := by
  rw [normChar, if_neg, if_neg]
  · intro h2
    rcases h2 with rfl | rfl
    · exact absurd h (by decide)
    · exact absurd h (by decide)
  · intro h2
    rcases h2 with rfl | rfl
    · exact absurd h (by decide)
    · exact absurd h (by decide)

theorem mapNormChar_ascii : ∀ l : List Char, (∀ c ∈ l, c.toNat ≤ 126) →
    l.map normChar = l
  | [], _ => rfl
  | c :: rest, h => by
    rw [List.map_cons, normChar_ascii c (h c (List.mem_cons_self c rest)),
      mapNormChar_ascii rest (fun x hx => h x (List.mem_cons_of_mem c hx))]

theorem pyStrip_sandwich (a b : Char) (X : List Char)
    (ha : isPyWs a = false) (hb : isPyWs b = false) :
    pyStrip (String.mk (a :: (X ++ [b]))) = String.mk (a :: (X ++ [b])) := by
  rw [pyStrip]
  show String.mk ((((a :: (X ++ [b])).dropWhile isPyWs).reverse.dropWhile
    isPyWs).reverse) = _
  rw [List.dropWhile_cons_of_neg (by rw [ha]; exact Bool.false_ne_true)]
  rw [List.reverse_cons, List.reverse_append, List.reverse_singleton,
    List.singleton_append, List.cons_append,
    List.dropWhile_cons_of_neg (by rw [hb]; exact Bool.false_ne_true)]
  rw [show b :: (X.reverse ++ [a]) = (a :: (X ++ [b])).reverse by
    rw [List.reverse_cons, List.reverse_append, List.reverse_singleton,
      List.singleton_append, List.cons_append]]
  rw [List.reverse_reverse]

theorem mk_cons_ne_empty (c : Char) (X : List Char) : String.mk (c :: X) ≠ "" :=
  fun h => List.noConfusion (congrArg String.data h)

theorem roundtrip_core (v : Json) (hok : mdOkV v = true) :
    jsonParse (String.mk (dumpV v)) = some v := by
  rw [jsonParse]
  show (match parseVal ((dumpV v).length + 1) (skipWs (dumpV v)) with
    | some (w, rest) => if skipWs rest = [] then some w else none
    | none => none) = some v
  have hws : skipWs (dumpV v) = dumpV v := by
    have h := skipWs_dumpV v hok []
    rwa [List.append_nil] at h
  rw [hws]
  have hp := (parse_dump_fuel ((dumpV v).length + 1)).1 v [] hok (sz_le_dumpV v)
  rw [List.append_nil] at hp
  rw [hp]
  rfl

theorem smartenedB_cons (a : Char) (as bs : List Char)
    (h : smartenedB (a :: as) bs = true) :
    ∃ b bs2, bs = b :: bs2 ∧ smartRelB a b = true ∧ smartenedB as bs2 = true := by
  cases bs with
  | nil => exact Bool.noConfusion (show false = true from h)
  | cons b bs2 =>
    have h2 : (smartRelB a b && smartenedB as bs2) = true := h
    rw [Bool.and_eq_true] at h2
    exact ⟨b, bs2, rfl, h2.1, h2.2⟩

theorem smartenedB_snoc : ∀ (as : List Char) (a : Char) (bs : List Char),
    smartenedB (as ++ [a]) bs = true →
    ∃ bs2 b, bs = bs2 ++ [b] ∧ smartenedB as bs2 = true ∧ smartRelB a b = true
  | [], a, bs, h => by
    rw [List.nil_append] at h
    obtain ⟨b, bs2, rfl, hr, hrest⟩ := smartenedB_cons a [] bs h
    cases bs2 with
    | nil => exact ⟨[], b, rfl, rfl, hr⟩
    | cons b2 bs3 => exact Bool.noConfusion (show false = true from hrest)
  | a0 :: as, a, bs, h => by
    rw [List.cons_append] at h
    obtain ⟨b0, bs2, rfl, hr0, hrest⟩ := smartenedB_cons a0 (as ++ [a]) bs h
    obtain ⟨bs3, b, rfl, hmid, hlast⟩ := smartenedB_snoc as a bs2 hrest
    refine ⟨b0 :: bs3, b, rfl, ?_, hlast⟩
    show (smartRelB a0 b0 && smartenedB as bs3) = true
    rw [hr0, hmid]
    rfl

theorem smartRel_other (a b : Char) (h1 : ¬(a = quoteC)) (h2 : ¬(a = aposC))
    (h : smartRelB a b = true) : b = a := by
  rw [smartRelB, if_neg h1, if_neg h2] at h
  exact (of_decide_eq_true h).symm

theorem smartened_map_norm : ∀ (as bs : List Char), smartenedB as bs = true →
    (∀ c ∈ as, c.toNat ≤ 126) → bs.map normChar = as
  | [], [], _, _ => rfl
  | [], b :: bs, h, _ => Bool.noConfusion (show false = true from h)
  | a :: as, [], h, _ => Bool.noConfusion (show false = true from h)
  | a :: as, b :: bs, h, hascii => by
    have h2 : (smartRelB a b && smartenedB as bs) = true := h
    rw [Bool.and_eq_true] at h2
    have htl := smartened_map_norm as bs h2.2
      (fun c hc => hascii c (List.mem_cons_of_mem a hc))
    rw [List.map_cons, htl]
    have hr := h2.1
    by_cases hq : a = quoteC
    · subst hq
      rw [smartRelB, if_pos rfl, Bool.or_eq_true] at hr
      rcases hr with hb | hb
    -- b is a typographic double quote; normChar sends it back to the straight one
      · rw [of_decide_eq_true hb]
        rfl
      · rw [of_decide_eq_true hb]
        rfl
    by_cases hap : a = aposC
    · subst hap
      rw [smartRelB, if_neg (by decide), if_pos rfl, Bool.or_eq_true] at hr
      rcases hr with hb | hb
      · rw [of_decide_eq_true hb]
        rfl
      · rw [of_decide_eq_true hb]
        rfl
    · rw [smartRel_other a b hq hap hr,
        normChar_ascii a (hascii a (List.mem_cons_self a as))]

theorem phsToJObj_keys : ∀ l : List (String × FieldDescriptor),
    JObj.keys (phsToJObj l) = l.map Prod.fst
  | [] => rfl
  | (n, fd) :: rest => by
    rw [phsToJObj, JObj.keys, phsToJObj_keys rest, List.map_cons]

theorem mdOkM_phsToJObj : ∀ l : List (String × FieldDescriptor),
    mdOkM (phsToJObj l) = true
  | [] => rfl
  | (n, fd) :: rest => by
    rw [phsToJObj, mdOkM, mdOkM_phsToJObj rest, Bool.and_true]
    rfl

theorem mdOkV_toJson (md : SlideMetadata)
    (hnd : (md.placeholders.map Prod.fst).Nodup) : mdOkV md.toJson = true := by
  have h1 : mdOkM (phsToJObj md.placeholders) = true := mdOkM_phsToJObj _
  have h2 : (JObj.keys (phsToJObj md.placeholders)).Nodup := by
    rw [phsToJObj_keys]
    exact hnd
  rw [SlideMetadata.toJson, mdOkV, Bool.and_eq_true]
  constructor
  · rw [mdOkM, Bool.and_eq_true]
    refine ⟨rfl, ?_⟩
    rw [mdOkM, Bool.and_eq_true]
    refine ⟨rfl, ?_⟩
    rw [mdOkM, Bool.and_eq_true]
    refine ⟨?_, rfl⟩
    rw [mdOkV, Bool.and_eq_true]
    exact ⟨h1, decide_eq_true h2⟩
  · rw [show JObj.keys (JObj.cons "slide_type" (Json.str md.slideType)
      (JObj.cons "description" (Json.str md.sdesc)
        (JObj.cons "placeholders" (Json.obj (phsToJObj md.placeholders))
          JObj.nil))) = ["slide_type", "description", "placeholders"] from rfl]
    decide

/-- Claim C8: for every well-formed metadata value (string fields and a
placeholder map with duplicate-free keys), parsing the serialized form with
the notes-parsing step of `parse_slide_metadata` yields the value's JSON
form back, and parsing still succeeds and yields the same value when every
straight double and single quote of the serialized text is replaced by a
left or right typographic look-alike. -/
theorem c8_metadata_round_trip (md : SlideMetadata)
    (hnd : (md.placeholders.map Prod.fst).Nodup) :
    parseNotesText (serializeMetadata md) = some md.toJson ∧
    ∀ t : String, SmartQuoted (serializeMetadata md) t →
      parseNotesText t = some md.toJson := by
  have hok : mdOkV md.toJson = true := mdOkV_toJson md hnd
  have hascii : ∀ c ∈ dumpV md.toJson, c.toNat ≤ 126 := dumpAsciiV md.toJson hok
  have hshape : dumpV md.toJson = lbraceC :: (dumpMems (JObj.cons "slide_type"
      (Json.str md.slideType) (JObj.cons "description" (Json.str md.sdesc)
        (JObj.cons "placeholders" (Json.obj (phsToJObj md.placeholders))
          JObj.nil))) ++ [rbraceC]) := rfl
  constructor
  · show (if pyStrip (String.mk (dumpV md.toJson)) = "" then none
      else jsonParse (normalizeQuotes (pyStrip (String.mk (dumpV md.toJson))))) =
      some md.toJson
    rw [hshape, pyStrip_sandwich _ _ _ (by decide) (by decide),
      if_neg (mk_cons_ne_empty _ _), ← hshape]
    show jsonParse (String.mk ((dumpV md.toJson).map normChar)) = some md.toJson
    rw [mapNormChar_ascii _ hascii]
    exact roundtrip_core md.toJson hok
  · intro t hsq
    obtain ⟨td⟩ := t
    have hsq2 : smartenedB (dumpV md.toJson) td = true := hsq
    rw [hshape] at hsq2
    obtain ⟨b0, bs0, htd, hrel0, hrest⟩ := smartenedB_cons _ _ _ hsq2
    obtain ⟨bs1, b1, hbs0, hmid, hrel1⟩ := smartenedB_snoc _ _ _ hrest
    have hb0 : b0 = lbraceC := smartRel_other _ _ (by decide) (by decide) hrel0
    have hb1 : b1 = rbraceC := smartRel_other _ _ (by decide) (by decide) hrel1
    subst htd
    subst hbs0
    subst hb0
    subst hb1
    rw [← hshape] at hsq2
    show (if pyStrip (String.mk (lbraceC :: (bs1 ++ [rbraceC]))) = "" then none
      else jsonParse (normalizeQuotes
        (pyStrip (String.mk (lbraceC :: (bs1 ++ [rbraceC])))))) = some md.toJson
    rw [pyStrip_sandwich _ _ _ (by decide) (by decide),
      if_neg (mk_cons_ne_empty _ _)]
    show jsonParse (String.mk ((lbraceC :: (bs1 ++ [rbraceC])).map normChar)) =
      some md.toJson
    rw [smartened_map_norm _ _ hsq2 hascii]
    exact roundtrip_core md.toJson hok

theorem c8_metadata_round_trip_witness :
    (((([("body_text", FieldDescriptor.mk "text" "Main"
        )] : List (String × FieldDescriptor)).map Prod.fst).Nodup) ∧
      SmartQuoted
        (serializeMetadata (SlideMetadata.mk "content" "Body"
          [("body_text", FieldDescriptor.mk "text" "Main")]))
        (String.mk ((serializeMetadata (SlideMetadata.mk "content" "Body"
          [("body_text", FieldDescriptor.mk "text" "Main")])).data.map
            (fun c => if c = quoteC then ldquoC else c)))) ∧
    (parseNotesText (serializeMetadata (SlideMetadata.mk "content" "Body"
        [("body_text", FieldDescriptor.mk "text" "Main")])) =
      some (SlideMetadata.toJson (SlideMetadata.mk "content" "Body"
        [("body_text", FieldDescriptor.mk "text" "Main")])) ∧
     parseNotesText (String.mk ((serializeMetadata (SlideMetadata.mk "content"
        "Body" [("body_text", FieldDescriptor.mk "text" "Main")])).data.map
          (fun c => if c = quoteC then ldquoC else c))) =
      some (SlideMetadata.toJson (SlideMetadata.mk "content" "Body"
        [("body_text", FieldDescriptor.mk "text" "Main")]))) :=
  ⟨⟨by decide, by exact rfl⟩,
   (c8_metadata_round_trip (SlideMetadata.mk "content" "Body"
      [("body_text", FieldDescriptor.mk "text" "Main")]) (by decide)).1,
   (c8_metadata_round_trip (SlideMetadata.mk "content" "Body"
      [("body_text", FieldDescriptor.mk "text" "Main")]) (by decide)).2
     (String.mk ((serializeMetadata (SlideMetadata.mk "content" "Body"
        [("body_text", FieldDescriptor.mk "text" "Main")])).data.map
          (fun c => if c = quoteC then ldquoC else c))) (by exact rfl)⟩

theorem exMapM_mem {α β : Type} (f : α → Except GenError β) :
    ∀ (l : List α) (bs : List β), exMapM f l = .ok bs →
      ∀ b ∈ bs, ∃ a ∈ l, f a = .ok b
  | [], bs, h => by
    rw [exMapM] at h
    cases h
    intro b hb
    exact absurd hb (List.not_mem_nil b)
  | a :: tl, bs, h => by
    rw [exMapM] at h
    cases hfa : f a with
    | error e => rw [hfa] at h; cases h
    | ok b0 =>
      rw [hfa] at h
      cases htl : exMapM f tl with
      | error e => rw [htl] at h; cases h
      | ok bs0 =>
        rw [htl] at h
        cases h
        intro b hb
        rcases List.mem_cons.mp hb with rfl | hb2
        · exact ⟨a, List.mem_cons_self a tl, hfa⟩
        · obtain ⟨a2, ha2, hfa2⟩ := exMapM_mem f tl bs0 htl b hb2
          exact ⟨a2, List.mem_cons_of_mem a ha2, hfa2⟩

theorem exMapM_ok_exists {α β : Type} (f : α → Except GenError β) :
    ∀ l : List α, (∀ a ∈ l, ∃ b, f a = .ok b) →
      ∃ bs : List β, exMapM f l = .ok bs
  | [], _ => ⟨[], rfl⟩
  | a :: tl, h => by
    obtain ⟨b, hb⟩ := h a (List.mem_cons_self a tl)
    obtain ⟨bs, hbs⟩ :=
      exMapM_ok_exists f tl (fun x hx => h x (List.mem_cons_of_mem a hx))
    exact ⟨b :: bs, by rw [exMapM, hb, hbs]⟩

theorem exMapM_length {α β : Type} (f : α → Except GenError β) :
    ∀ (l : List α) (bs : List β), exMapM f l = .ok bs → bs.length = l.length
  | [], bs, h => by
    rw [exMapM] at h
    cases h
    rfl
  | a :: tl, bs, h => by
    rw [exMapM] at h
    cases hfa : f a with
    | error e => rw [hfa] at h; cases h
    | ok b0 =>
      rw [hfa] at h
      cases htl : exMapM f tl with
      | error e => rw [htl] at h; cases h
      | ok bs0 =>
        rw [htl] at h
        cases h
        rw [List.length_cons, List.length_cons, exMapM_length f tl bs0 htl]

theorem exMapM_get {α β : Type} (f : α → Except GenError β) :
    ∀ (l : List α) (bs : List β), exMapM f l = .ok bs →
      ∀ (i : Nat) (h1 : i < l.length) (h2 : i < bs.length),
        f (l.get ⟨i, h1⟩) = .ok (bs.get ⟨i, h2⟩)
  | [], bs, h => by
    intro i h1
    exact absurd h1 (Nat.not_lt_zero i)
  | a :: tl, bs, h => by
    rw [exMapM] at h
    cases hfa : f a with
    | error e => rw [hfa] at h; cases h
    | ok b0 =>
      rw [hfa] at h
      cases htl : exMapM f tl with
      | error e => rw [htl] at h; cases h
      | ok bs0 =>
        rw [htl] at h
        cases h
        intro i h1 h2
        cases i with
        | zero => exact hfa
        | succ j =>
          exact exMapM_get f tl bs0 htl j (Nat.lt_of_succ_lt_succ h1)
            (Nat.lt_of_succ_lt_succ h2)

theorem tmFind_mem : ∀ (m : TypeMap) (k : Json) (es : List CatEntry),
    tmFind m k = some es → (k, es) ∈ m
  | [], _, _, h => by rw [tmFind] at h; cases h
  | (k0, es0) :: rest, k, es, h => by
    rw [tmFind] at h
    by_cases hk : k0 = k
    · rw [if_pos hk] at h
      cases h
      subst hk
      exact List.mem_cons_self _ _
    · rw [if_neg hk] at h
      exact List.mem_cons_of_mem _ (tmFind_mem rest k es h)

theorem tmAppend_ne_nil : ∀ (m : TypeMap) (key : Json) (e : CatEntry),
    (∀ p ∈ m, p.2 ≠ []) → ∀ p ∈ tmAppend m key e, p.2 ≠ []
  | [], key, e, _ => by
    intro p hp
    rw [tmAppend] at hp
    rcases List.mem_singleton.mp hp with rfl
    simp
  | (k0, es0) :: rest, key, e, h => by
    intro p hp
    rw [tmAppend] at hp
    by_cases hk : k0 = key
    · rw [if_pos hk] at hp
      rcases List.mem_cons.mp hp with rfl | hp2
      · have h0 := h (k0, es0) (List.mem_cons_self _ _)
        simp only [ne_eq, List.append_eq_nil]
        intro hcon
        exact h0 hcon.1
      · exact h p (List.mem_cons_of_mem _ hp2)
    · rw [if_neg hk] at hp
      rcases List.mem_cons.mp hp with rfl | hp2
      · exact h (k0, es0) (List.mem_cons_self _ _)
      · exact tmAppend_ne_nil rest key e
          (fun q hq => h q (List.mem_cons_of_mem _ hq)) p hp2

theorem buildTypeMapAux_ne_nil :
    ∀ (slides : List Slide) (idx : Nat) (acc m : TypeMap),
      (∀ p ∈ acc, p.2 ≠ []) → buildTypeMapAux idx acc slides = .ok m →
      ∀ p ∈ m, p.2 ≠ []
  | [], idx, acc, m, hacc, h => by
    rw [buildTypeMapAux] at h
    cases h
    exact hacc
  | sl :: rest, idx, acc, m, hacc, h => by
    rw [buildTypeMapAux] at h
    cases hcs : catalogStep sl with
    | error e => rw [hcs] at h; cases h
    | ok o =>
      rw [hcs] at h
      cases o with
      | none => exact buildTypeMapAux_ne_nil rest (idx + 1) acc m hacc h
      | some p =>
        exact buildTypeMapAux_ne_nil rest (idx + 1) _ m
          (tmAppend_ne_nil acc p.1 ⟨idx, sl, p.2⟩ hacc) h

theorem buckets_nonempty (slides : List Slide) (m : TypeMap)
    (h : buildSlideTypeMap slides = .ok m) : ∀ p ∈ m, p.2 ≠ [] :=
  buildTypeMapAux_ne_nil slides 0 [] m (by intro p hp; cases hp) h

theorem tmAppend_keys : ∀ (m : TypeMap) (key : Json) (e : CatEntry) (ty : Json),
    ty ∈ tmKeys (tmAppend m key e) ↔ ty ∈ tmKeys m ∨ ty = key
  | [], key, e, ty => by
    rw [tmAppend]
    show ty ∈ [key] ↔ ty ∈ ([] : List Json) ∨ ty = key
    simp
  | (k0, es0) :: rest, key, e, ty => by
    rw [tmAppend]
    by_cases hk : k0 = key
    · rw [if_pos hk]
      subst hk
      show ty ∈ k0 :: tmKeys rest ↔ ty ∈ k0 :: tmKeys rest ∨ ty = k0
      constructor
      · exact Or.inl
      · intro h
        rcases h with h | rfl
        · exact h
        · exact List.mem_cons_self _ _
    · rw [if_neg hk]
      show ty ∈ k0 :: tmKeys (tmAppend rest key e) ↔
        ty ∈ k0 :: tmKeys rest ∨ ty = key
      rw [List.mem_cons, List.mem_cons, tmAppend_keys rest key e ty]
      tauto

theorem buildTypeMapAux_keys :
    ∀ (slides : List Slide) (idx : Nat) (acc m : TypeMap),
      buildTypeMapAux idx acc slides = .ok m →
      ∀ ty, ty ∈ tmKeys m ↔
        ty ∈ tmKeys acc ∨ ∃ sl ∈ slides, declaredKey sl = some ty
  | [], idx, acc, m, h, ty => by
    rw [buildTypeMapAux] at h
    cases h
    simp
  | sl :: rest, idx, acc, m, h, ty => by
    rw [buildTypeMapAux] at h
    cases hcs : catalogStep sl with
    | error e => rw [hcs] at h; cases h
    | ok o =>
      rw [hcs] at h
      have hdk : declaredKey sl = match (Except.ok o : Except GenError
          (Option (Json × Json))) with
        | .ok (some (k, _)) => some k
        | _ => none := by
        rw [declaredKey, hcs]
      cases o with
      | none =>
        rw [buildTypeMapAux_keys rest (idx + 1) acc m h ty]
        constructor
        · intro hcase
          rcases hcase with hacc | ⟨sl2, hsl2, hk2⟩
          · exact Or.inl hacc
          · exact Or.inr ⟨sl2, List.mem_cons_of_mem _ hsl2, hk2⟩
        · intro hcase
          rcases hcase with hacc | ⟨sl2, hsl2, hk2⟩
          · exact Or.inl hacc
          rcases List.mem_cons.mp hsl2 with rfl | hsl3
          · rw [hdk] at hk2
            cases hk2
          · exact Or.inr ⟨sl2, hsl3, hk2⟩
      | some p =>
        rw [buildTypeMapAux_keys rest (idx + 1) _ m h ty, tmAppend_keys]
        constructor
        · intro hcase
          rcases hcase with (hacc | rfl) | ⟨sl2, hsl2, hk2⟩
          · exact Or.inl hacc
          · refine Or.inr ⟨sl, List.mem_cons_self _ _, ?_⟩
            rw [hdk]
          · exact Or.inr ⟨sl2, List.mem_cons_of_mem _ hsl2, hk2⟩
        · intro hcase
          rcases hcase with hacc | ⟨sl2, hsl2, hk2⟩
          · exact Or.inl (Or.inl hacc)
          rcases List.mem_cons.mp hsl2 with rfl | hsl3
          · rw [hdk] at hk2
            cases hk2
            exact Or.inl (Or.inr rfl)
          · exact Or.inr ⟨sl2, hsl3, hk2⟩

theorem tmKeys_char (slides : List Slide) (m : TypeMap)
    (h : buildSlideTypeMap slides = .ok m) :
    ∀ ty, ty ∈ tmKeys m ↔ ∃ sl ∈ slides, declaredKey sl = some ty := by
  intro ty
  rw [buildTypeMapAux_keys slides 0 [] m h ty]
  show ty ∈ ([] : List Json) ∨ _ ↔ _
  simp

theorem descOk_placeholderKeys (md : Json) (hd : descOkB md = true) :
    ∃ ks, placeholderKeys md = .ok ks := by
  cases md with
  | obj ms =>
    rw [descOkB] at hd
    cases hfind : JObj.find ms "placeholders" with
    | none =>
      refine ⟨JObj.nil.keys.dedup, ?_⟩
      rw [placeholderKeys,
        show pyGetD (Json.obj ms) "placeholders" (Json.obj JObj.nil) =
          .ok ((JObj.find ms "placeholders").getD (Json.obj JObj.nil)) from rfl,
        hfind]
      rfl
    | some j =>
      rw [hfind] at hd
      cases j with
      | obj ps =>
        refine ⟨ps.keys.dedup, ?_⟩
        rw [placeholderKeys,
          show pyGetD (Json.obj ms) "placeholders" (Json.obj JObj.nil) =
            .ok ((JObj.find ms "placeholders").getD (Json.obj JObj.nil)) from rfl,
          hfind]
        rfl
      | str s => exact Bool.noConfusion hd
      | num r => exact Bool.noConfusion hd
      | bool b => exact Bool.noConfusion hd
      | null => exact Bool.noConfusion hd
      | arr es => exact Bool.noConfusion hd
  | str s => exact Bool.noConfusion hd
  | num r => exact Bool.noConfusion hd
  | bool b => exact Bool.noConfusion hd
  | null => exact Bool.noConfusion hd
  | arr es => exact Bool.noConfusion hd

theorem scoreOne_ok (req : List String) (c : CatEntry)
    (hd : descOkB c.metadata = true) : ∃ s, scoreOne req c = .ok (c, s) := by
  obtain ⟨ks, hks⟩ := descOk_placeholderKeys c.metadata hd
  exact ⟨(interCard ks req : Int), by rw [scoreOne, hks]⟩

theorem scoreOne_shape (req : List String) (a : CatEntry) (p : CatEntry × Int)
    (h : scoreOne req a = .ok p) : p.1 = a := by
  cases hks : placeholderKeys a.metadata with
  | ok ks =>
    rw [scoreOne, hks] at h
    cases h
    rfl
  | error e =>
    rw [scoreOne, hks] at h
    cases h

theorem selScan_mem_acc : ∀ (l : List (CatEntry × Int))
    (acc : Option CatEntry × Int) (c : CatEntry),
    (selScan l acc).1 = some c → acc.1 = some c ∨ ∃ s, (c, s) ∈ l
  | [], acc, c, h => by
    rw [selScan] at h
    exact Or.inl h
  | p :: rest, acc, c, h => by
    rw [selScan] at h
    rcases selScan_mem_acc rest _ c h with hacc | ⟨s, hs⟩
    · by_cases hgt : p.2 > acc.2
      · rw [if_pos hgt] at hacc
        have hc : p.1 = c := Option.some.inj hacc
        refine Or.inr ⟨p.2, ?_⟩
        rw [← hc, Prod.mk.eta]
        exact List.mem_cons_self _ _
      · rw [if_neg hgt] at hacc
        exact Or.inl hacc
    · exact Or.inr ⟨s, List.mem_cons_of_mem p hs⟩

theorem selectEntry_ok_mem (cands : List CatEntry) (req : List String)
    (hne : cands ≠ []) (hd : ∀ e ∈ cands, descOkB e.metadata = true) :
    ∃ e ∈ cands, selectEntry cands req = .ok e := by
  cases cands with
  | nil => exact absurd rfl hne
  | cons c0 tl =>
    cases tl with
    | nil => exact ⟨c0, List.mem_cons_self _ _, rfl⟩
    | cons c1 rest =>
      obtain ⟨scored, hscored⟩ := exMapM_ok_exists (scoreOne req)
        (c0 :: c1 :: rest) (fun a ha => by
          obtain ⟨s, hs⟩ := scoreOne_ok req a (hd a ha)
          exact ⟨(a, s), hs⟩)
      cases hsel : (selScan scored (none, -1)).1 with
      | some c =>
        have hmem : c ∈ c0 :: c1 :: rest := by
          rcases selScan_mem_acc scored (none, -1) c hsel with hacc | ⟨s, hs⟩
          · cases hacc
          · obtain ⟨a, ha, hsc⟩ := exMapM_mem _ _ _ hscored (c, s) hs
            have h6 : c = a := scoreOne_shape req a (c, s) hsc
            rw [h6]
            exact ha
        refine ⟨c, hmem, ?_⟩
        show (match exMapM (scoreOne req) (c0 :: c1 :: rest) with
          | Except.error e => Except.error e
          | Except.ok scored2 =>
            match (selScan scored2 (none, -1)).1 with
            | some c2 => Except.ok c2
            | none =>
              match c0 :: c1 :: rest with
              | c3 :: _ => Except.ok c3
              | [] => Except.error
                  (GenError.pyErr "IndexError: list index out of range")) =
          Except.ok c
        rw [hscored]
        dsimp only
        rw [hsel]
      | none =>
        refine ⟨c0, List.mem_cons_self _ _, ?_⟩
        show (match exMapM (scoreOne req) (c0 :: c1 :: rest) with
          | Except.error e => Except.error e
          | Except.ok scored2 =>
            match (selScan scored2 (none, -1)).1 with
            | some c2 => Except.ok c2
            | none =>
              match c0 :: c1 :: rest with
              | c3 :: _ => Except.ok c3
              | [] => Except.error
                  (GenError.pyErr "IndexError: list index out of range")) =
          Except.ok c0
        rw [hscored]
        dsimp only
        rw [hsel]

theorem selectEntry_mem_of_ok (cands : List CatEntry) (req : List String)
    (e : CatEntry) (h : selectEntry cands req = .ok e) : e ∈ cands := by
  cases cands with
  | nil => exact Except.noConfusion h
  | cons c0 tl =>
    cases tl with
    | nil =>
      have h2 : (Except.ok c0 : Except GenError CatEntry) = .ok e := h
      injection h2 with h3
      rw [← h3]
      exact List.mem_cons_self _ _
    | cons c1 rest =>
      have h2 : (match exMapM (scoreOne req) (c0 :: c1 :: rest) with
        | Except.error e2 => Except.error e2
        | Except.ok scored2 =>
          match (selScan scored2 (none, -1)).1 with
          | some c2 => Except.ok c2
          | none =>
            match c0 :: c1 :: rest with
            | c3 :: _ => Except.ok c3
            | [] => Except.error
                (GenError.pyErr "IndexError: list index out of range")) =
        Except.ok e := h
      cases hscored : exMapM (scoreOne req) (c0 :: c1 :: rest) with
      | error e2 =>
        rw [hscored] at h2
        have h3 : (Except.error e2 : Except GenError CatEntry) = .ok e := h2
        exact Except.noConfusion h3
      | ok scored =>
        rw [hscored] at h2
        have h3 : (match (selScan scored (none, -1)).1 with
          | some c2 => (Except.ok c2 : Except GenError CatEntry)
          | none =>
            match c0 :: c1 :: rest with
            | c3 :: _ => Except.ok c3
            | [] => Except.error
                (GenError.pyErr "IndexError: list index out of range")) =
          Except.ok e := h2
        cases hsel : (selScan scored (none, -1)).1 with
        | some c =>
          rw [hsel] at h3
          have h4 : (Except.ok c : Except GenError CatEntry) = .ok e := h3
          injection h4 with h5
          rcases selScan_mem_acc scored (none, -1) c hsel with hacc | ⟨s, hs⟩
          · cases hacc
          · obtain ⟨a, ha, hsc⟩ := exMapM_mem _ _ _ hscored (c, s) hs
            have h6 : c = a := scoreOne_shape req a (c, s) hsc
            rw [← h5, h6]
            exact ha
        | none =>
          rw [hsel] at h3
          have h4 : (Except.ok c0 : Except GenError CatEntry) = .ok e := h3
          injection h4 with h5
          rw [← h5]
          exact List.mem_cons_self _ _

theorem resolveOne_ok (m : TypeMap) (sp : SlideSpec) (cands : List CatEntry)
    (hfind : tmFind m (.str sp.slideType) = some cands) (hne : cands ≠ [])
    (hd : ∀ e ∈ cands, descOkB e.metadata = true) :
    ∃ e ∈ cands, resolveOne m sp = .ok ⟨e.slide, sp.fields, e.metadata⟩ := by
  obtain ⟨e, hmem, hsel⟩ := selectEntry_ok_mem cands (sp.fields.map Prod.fst) hne hd
  refine ⟨e, hmem, ?_⟩
  rw [resolveOne, hfind]
  dsimp only
  rw [hsel]

theorem resolveOne_err (m : TypeMap) (sp : SlideSpec)
    (hfind : tmFind m (.str sp.slideType) = none) :
    resolveOne m sp = .error (.typeNotFound sp.slideType (tmKeys m)) := by
  rw [resolveOne, hfind]

theorem resolveOne_shape (m : TypeMap) (sp : SlideSpec) (b : BuildInfo)
    (h : resolveOne m sp = .ok b) :
    ∃ cands e, tmFind m (.str sp.slideType) = some cands ∧ e ∈ cands ∧
      b = ⟨e.slide, sp.fields, e.metadata⟩ := by
  rw [resolveOne] at h
  cases hfind : tmFind m (.str sp.slideType) with
  | none =>
    rw [hfind] at h
    cases h
  | some cands =>
    rw [hfind] at h
    dsimp only at h
    cases hsel : selectEntry cands (sp.fields.map Prod.fst) with
    | error e2 =>
      rw [hsel] at h
      cases h
    | ok e =>
      rw [hsel] at h
      dsimp only at h
      cases h
      exact ⟨cands, e, rfl, selectEntry_mem_of_ok cands _ e hsel, rfl⟩

theorem psDescOk_find : ∀ (ps : JObj) (name : String) (j : Json),
    psDescOk ps = true → JObj.find ps name = some j → ∃ ds, j = .obj ds
  | .nil, name, j, _, h2 => by rw [JObj.find] at h2; cases h2
  | .cons k v tl, name, j, h1, h2 => by
    rw [JObj.find] at h2
    by_cases hk : k = name
    · rw [if_pos hk] at h2
      cases v with
      | obj ds => exact ⟨ds, (Option.some.inj h2).symm⟩
      | str s => exact Bool.noConfusion h1
      | num r => exact Bool.noConfusion h1
      | bool b => exact Bool.noConfusion h1
      | null => exact Bool.noConfusion h1
      | arr es => exact Bool.noConfusion h1
    · rw [if_neg hk] at h2
      cases v with
      | obj ds => exact psDescOk_find tl name j h1 h2
      | str s => exact Bool.noConfusion h1
      | num r => exact Bool.noConfusion h1
      | bool b => exact Bool.noConfusion h1
      | null => exact Bool.noConfusion h1
      | arr es => exact Bool.noConfusion h1

theorem populateField_obj_ok (ps : JObj) (name : String) (v : Value)
    (hps : psDescOk ps = true)
    (hv : valueOkFor (match JObj.find ps name with
      | some (Json.obj ds) => (JObj.find ds "type").getD (Json.str "text")
      | _ => Json.str "text") v = true) (sl : Slide) :
    ∃ sl2, populateField sl (.obj ps) name v = .ok sl2 := by
  cases hfind : JObj.find ps name with
  | none =>
    refine ⟨replaceTextInSlide sl (fieldToken name) (pyStr v), ?_⟩
    rw [populateField,
      show pyGetD (Json.obj ps) name (Json.obj JObj.nil) =
        .ok ((JObj.find ps name).getD (Json.obj JObj.nil)) from rfl, hfind]
    rfl
  | some j =>
    obtain ⟨ds, rfl⟩ := psDescOk_find ps name j hps hfind
    rw [hfind] at hv
    dsimp only at hv
    by_cases htext : fieldTypeTextLike ((JObj.find ds "type").getD
        (Json.str "text")) = true
    · refine ⟨replaceTextInSlide sl (fieldToken name) (pyStr v), ?_⟩
      rw [populateField,
        show pyGetD (Json.obj ps) name (Json.obj JObj.nil) =
          .ok ((JObj.find ps name).getD (Json.obj JObj.nil)) from rfl, hfind]
      dsimp only
      rw [Option.getD_some]
      rw [show pyGetD (Json.obj ds) "type" (Json.str "text") =
        .ok ((JObj.find ds "type").getD (Json.str "text")) from rfl]
      dsimp only
      rw [if_pos htext]
    · by_cases hlist : (JObj.find ds "type").getD (Json.str "text") =
          Json.str "list"
      · rw [valueOkFor, if_pos hlist] at hv
        cases hit : pyIterate v with
        | error e =>
          rw [hit] at hv
          exact Bool.noConfusion hv
        | ok items =>
          refine ⟨populateListField sl name items, ?_⟩
          rw [populateField,
            show pyGetD (Json.obj ps) name (Json.obj JObj.nil) =
              .ok ((JObj.find ps name).getD (Json.obj JObj.nil)) from rfl, hfind]
          dsimp only
          rw [Option.getD_some]
          rw [show pyGetD (Json.obj ds) "type" (Json.str "text") =
            .ok ((JObj.find ds "type").getD (Json.str "text")) from rfl]
          dsimp only
          rw [if_neg htext, if_pos hlist, hit]
      · by_cases htab : (JObj.find ds "type").getD (Json.str "text") =
            Json.str "table"
        · rw [valueOkFor, if_neg hlist, if_pos htab] at hv
          cases hg : pyToGrid v with
          | error e =>
            rw [hg] at hv
            exact Bool.noConfusion hv
          | ok grid =>
            refine ⟨populateTableField sl name grid, ?_⟩
            rw [populateField,
              show pyGetD (Json.obj ps) name (Json.obj JObj.nil) =
                .ok ((JObj.find ps name).getD (Json.obj JObj.nil)) from rfl,
              hfind]
            dsimp only
            rw [Option.getD_some]
            rw [show pyGetD (Json.obj ds) "type" (Json.str "text") =
              .ok ((JObj.find ds "type").getD (Json.str "text")) from rfl]
            dsimp only
            rw [if_neg htext, if_neg hlist, if_pos htab, hg]
        · refine ⟨sl, ?_⟩
          rw [populateField,
            show pyGetD (Json.obj ps) name (Json.obj JObj.nil) =
              .ok ((JObj.find ps name).getD (Json.obj JObj.nil)) from rfl, hfind]
          dsimp only
          rw [Option.getD_some]
          rw [show pyGetD (Json.obj ds) "type" (Json.str "text") =
            .ok ((JObj.find ds "type").getD (Json.str "text")) from rfl]
          dsimp only
          rw [if_neg htext, if_neg hlist, if_neg htab]

theorem populateFields_ok (pinfo : Json) :
    ∀ fields : List (String × Value),
    (∀ kv ∈ fields, ∀ sl2 : Slide, ∃ sl3,
      populateField sl2 pinfo kv.1 kv.2 = .ok sl3) →
    ∀ sl : Slide, ∃ out, populateFields pinfo sl fields = .ok out
  | [], _, sl => ⟨sl, rfl⟩
  | kv :: rest, h, sl => by
    obtain ⟨sl2, hsl2⟩ := h kv (List.mem_cons_self _ _) sl
    obtain ⟨out, hout⟩ := populateFields_ok pinfo rest
      (fun kv2 hkv2 => h kv2 (List.mem_cons_of_mem _ hkv2)) sl2
    refine ⟨out, ?_⟩
    rw [populateFields, hsl2]
    dsimp only
    exact hout

theorem resolvedFieldType_of_ps (ms : JObj) (ps : JObj) (name : String)
    (hfindp : JObj.find ms "placeholders" = some (Json.obj ps)) :
    resolvedFieldType (Json.obj ms) name =
      (match JObj.find ps name with
       | some (Json.obj ds) => (JObj.find ds "type").getD (Json.str "text")
       | _ => Json.str "text") := by
  rw [resolvedFieldType, hfindp]

theorem resolvedFieldType_no_ps (ms : JObj) (name : String)
    (hfindp : JObj.find ms "placeholders" = none) :
    resolvedFieldType (Json.obj ms) name = Json.str "text" := by
  rw [resolvedFieldType, hfindp]

theorem populateSlide_ok (sl : Slide) (fields : List (String × Value)) (md : Json)
    (hd : descOkB md = true) (hf : fieldsOkB md fields = true) :
    ∃ out, populateSlide sl fields md = .ok out := by
  cases md with
  | str s => exact Bool.noConfusion hd
  | num r => exact Bool.noConfusion hd
  | bool b => exact Bool.noConfusion hd
  | null => exact Bool.noConfusion hd
  | arr es => exact Bool.noConfusion hd
  | obj ms =>
    rw [descOkB] at hd
    rw [fieldsOkB, List.all_eq_true] at hf
    cases ms with
    | nil =>
      have hpf : ∀ kv ∈ fields, ∀ sl2 : Slide, ∃ sl3,
          populateField sl2 (Json.obj JObj.nil) kv.1 kv.2 = .ok sl3 := by
        intro kv _ sl2
        exact populateField_obj_ok JObj.nil kv.1 kv.2 rfl (by rfl) sl2
      obtain ⟨out, hout⟩ := populateFields_ok (Json.obj JObj.nil) fields hpf sl
      exact ⟨out, hout⟩
    | cons k v tl =>
      cases hfindp : JObj.find (JObj.cons k v tl) "placeholders" with
      | none =>
        have hpf : ∀ kv ∈ fields, ∀ sl2 : Slide, ∃ sl3,
            populateField sl2 (Json.obj JObj.nil) kv.1 kv.2 = .ok sl3 := by
          intro kv _ sl2
          exact populateField_obj_ok JObj.nil kv.1 kv.2 rfl (by rfl) sl2
        obtain ⟨out, hout⟩ := populateFields_ok (Json.obj JObj.nil) fields hpf sl
        refine ⟨out, ?_⟩
        rw [populateSlide,
          show (if pyTruthy (Json.obj (JObj.cons k v tl)) then
              pyGetD (Json.obj (JObj.cons k v tl)) "placeholders"
                (Json.obj JObj.nil)
            else .ok (Json.obj JObj.nil)) =
            Except.ok ((JObj.find (JObj.cons k v tl) "placeholders").getD
              (Json.obj JObj.nil)) from rfl, hfindp]
        dsimp only
        exact hout
      | some j =>
        rw [hfindp] at hd
        cases j with
        | obj ps =>
          have hps : psDescOk ps = true := hd
          have hpf : ∀ kv ∈ fields, ∀ sl2 : Slide, ∃ sl3,
              populateField sl2 (Json.obj ps) kv.1 kv.2 = .ok sl3 := by
            intro kv hkv sl2
            refine populateField_obj_ok ps kv.1 kv.2 hps ?_ sl2
            have hres := hf kv hkv
            rw [resolvedFieldType_of_ps (JObj.cons k v tl) ps kv.1 hfindp] at hres
            exact hres
          obtain ⟨out, hout⟩ := populateFields_ok (Json.obj ps) fields hpf sl
          refine ⟨out, ?_⟩
          rw [populateSlide,
            show (if pyTruthy (Json.obj (JObj.cons k v tl)) then
                pyGetD (Json.obj (JObj.cons k v tl)) "placeholders"
                  (Json.obj JObj.nil)
              else .ok (Json.obj JObj.nil)) =
              Except.ok ((JObj.find (JObj.cons k v tl) "placeholders").getD
                (Json.obj JObj.nil)) from rfl, hfindp]
          dsimp only
          rw [Option.getD_some]
          exact hout
        | str s => exact Bool.noConfusion hd
        | num r => exact Bool.noConfusion hd
        | bool b => exact Bool.noConfusion hd
        | null => exact Bool.noConfusion hd
        | arr es => exact Bool.noConfusion hd

theorem resolveLayout_ok (layouts : List Layout) (nm : String)
    (hne : layouts ≠ []) : ∃ l, resolveLayout layouts nm = .ok l := by
  cases hfind : layouts.find? (fun l => l.name == nm) with
  | some l => exact ⟨l, by rw [resolveLayout.eq_def, hfind]⟩
  | none =>
    cases layouts with
    | nil => exact absurd rfl hne
    | cons l0 rest =>
      exact ⟨l0, by rw [resolveLayout.eq_def, hfind]⟩

theorem composeOne_ok (layouts : List Layout) (b : BuildInfo)
    (hlay : layouts ≠ []) (hd : descOkB b.metadata = true)
    (hf : fieldsOkB b.metadata b.fields = true) :
    ∃ out, composeOne layouts b = .ok out := by
  obtain ⟨l, hl⟩ := resolveLayout_ok layouts b.slide.layoutName hlay
  obtain ⟨out, hout⟩ := populateSlide_ok
    (copyPlaceholderContent b.slide (copySlideShapes b.slide (addSlide l)))
    b.fields b.metadata hd hf
  refine ⟨out, ?_⟩
  rw [composeOne.eq_def, hl]
  dsimp only
  exact hout

theorem resolveSpecs_first_missing (m : TypeMap)
    (hne : ∀ p ∈ m, p.2 ≠ [])
    (hdesc : ∀ p ∈ m, ∀ e ∈ p.2, descOkB e.metadata = true) :
    ∀ (specs : List SlideSpec) (sp0 : SlideSpec),
      specs.find? (fun sp => (tmFind m (.str sp.slideType)).isNone) = some sp0 →
      resolveSpecs m specs = .error (.typeNotFound sp0.slideType (tmKeys m))
  | [], sp0, h => by rw [List.find?] at h; cases h
  | sp :: rest, sp0, h => by
    cases hfind : tmFind m (.str sp.slideType) with
    | none =>
      rw [List.find?_cons_of_pos _ (by rw [hfind]; rfl)] at h
      injection h with h2
      subst h2
      rw [resolveSpecs, exMapM, resolveOne_err m sp hfind]
    | some cands =>
      rw [List.find?_cons_of_neg _ (by rw [hfind]; exact Bool.noConfusion)] at h
      have hmem := tmFind_mem m (.str sp.slideType) cands hfind
      obtain ⟨e, hemem, hres⟩ := resolveOne_ok m sp cands hfind
        (hne _ hmem) (fun e2 he2 => hdesc _ hmem e2 he2)
      rw [resolveSpecs, exMapM, hres]
      dsimp only
      rw [show exMapM (resolveOne m) rest = resolveSpecs m rest from rfl,
        resolveSpecs_first_missing m hne hdesc rest sp0 h]

/-- Claim C2, counterexample to the stated error contract: a request whose
second spec names a slide type absent from the catalog, against a template
whose catalog has two slides of the same declared type with a non-dict
`placeholders` value.  Resolution of the FIRST spec (a present type) raises
`AttributeError` inside candidate scoring, so the surfaced error names
neither the absent type nor the available-type list — refuting the claim
that the error always carries the offending type and the catalog keys.
Nothing is written, matching the claim's no-partial-output half. -/
theorem c2_unknown_type_counterexample :
    (Json.str "zzz") ∉ tmKeys [((Json.str "b"),
      [⟨0, ⟨"L", [], some "\x7b\"slide_type\": \"b\", \"placeholders\": \"x\"\x7d"⟩,
        .obj (.cons "slide_type" (.str "b")
          (.cons "placeholders" (.str "x") .nil))⟩,
       ⟨1, ⟨"L", [], some "\x7b\"slide_type\": \"b\", \"placeholders\": \"x\"\x7d"⟩,
        .obj (.cons "slide_type" (.str "b")
          (.cons "placeholders" (.str "x") .nil))⟩])] ∧
    buildSlideTypeMap
      [⟨"L", [], some "\x7b\"slide_type\": \"b\", \"placeholders\": \"x\"\x7d"⟩,
       ⟨"L", [], some "\x7b\"slide_type\": \"b\", \"placeholders\": \"x\"\x7d"⟩] =
    .ok [((Json.str "b"),
      [⟨0, ⟨"L", [], some "\x7b\"slide_type\": \"b\", \"placeholders\": \"x\"\x7d"⟩,
        .obj (.cons "slide_type" (.str "b")
          (.cons "placeholders" (.str "x") .nil))⟩,
       ⟨1, ⟨"L", [], some "\x7b\"slide_type\": \"b\", \"placeholders\": \"x\"\x7d"⟩,
        .obj (.cons "slide_type" (.str "b")
          (.cons "placeholders" (.str "x") .nil))⟩])] ∧
    generateFromSlides
      ⟨[⟨"L", []⟩],
        [⟨"L", [], some "\x7b\"slide_type\": \"b\", \"placeholders\": \"x\"\x7d"⟩,
         ⟨"L", [], some "\x7b\"slide_type\": \"b\", \"placeholders\": \"x\"\x7d"⟩]⟩
      [⟨"b", []⟩, ⟨"zzz", []⟩] =
    ([], .error (.pyErr "AttributeError: no attribute keys")) :=
  ⟨by decide, rfl, rfl⟩

/-- Claim C2, amended: when the catalog builds and every catalog entry's
metadata is population-well-formed, a request whose first unresolvable spec
names a type absent from the catalog fails before any output write (the
write trace is empty), and the surfaced error is `typeNotFound` carrying
that spec's type together with the catalog's key list; the key list holds
exactly the types declared by the template's slides. -/
theorem c2_unknown_type_error (template : Pres) (specs : List SlideSpec)
    (m : TypeMap) (sp0 : SlideSpec)
    (hb : buildSlideTypeMap template.slides = .ok m)
    (hdesc : ∀ p ∈ m, ∀ e ∈ p.2, descOkB e.metadata = true)
    (hfirst : specs.find?
      (fun sp => (tmFind m (.str sp.slideType)).isNone) = some sp0) :
    generateFromSlides template specs =
      ([], .error (.typeNotFound sp0.slideType (tmKeys m))) ∧
    ∀ ty, ty ∈ tmKeys m ↔ ∃ sl ∈ template.slides, declaredKey sl = some ty := by
  have hne := buckets_nonempty template.slides m hb
  have hres := resolveSpecs_first_missing m hne hdesc specs sp0 hfirst
  constructor
  · rw [generateFromSlides.eq_def, hb]
    dsimp only
    rw [hres]
  · exact tmKeys_char template.slides m hb

theorem c2_unknown_type_error_witness :
    buildSlideTypeMap [⟨"L", [], some "\x7b\"slide_type\": \"b\"\x7d"⟩] =
      .ok [((Json.str "b"),
        [⟨0, ⟨"L", [], some "\x7b\"slide_type\": \"b\"\x7d"⟩,
          .obj (.cons "slide_type" (.str "b") .nil)⟩])] ∧
    (∀ p ∈ ([((Json.str "b"),
        [⟨0, ⟨"L", [], some "\x7b\"slide_type\": \"b\"\x7d"⟩,
          .obj (.cons "slide_type" (.str "b") .nil)⟩])] : TypeMap),
      ∀ e ∈ p.2, descOkB e.metadata = true) ∧
    ([(⟨"zzz", []⟩ : SlideSpec)].find? (fun sp =>
      (tmFind [((Json.str "b"),
        [⟨0, ⟨"L", [], some "\x7b\"slide_type\": \"b\"\x7d"⟩,
          .obj (.cons "slide_type" (.str "b") .nil)⟩])]
        (.str sp.slideType)).isNone) = some ⟨"zzz", []⟩) ∧
    generateFromSlides
      ⟨[⟨"L", []⟩], [⟨"L", [], some "\x7b\"slide_type\": \"b\"\x7d"⟩]⟩
      [⟨"zzz", []⟩] =
    ([], .error (.typeNotFound "zzz" [Json.str "b"])) :=
  ⟨rfl, by decide, rfl,
   (c2_unknown_type_error
      ⟨[⟨"L", []⟩], [⟨"L", [], some "\x7b\"slide_type\": \"b\"\x7d"⟩]⟩
      [⟨"zzz", []⟩]
      [((Json.str "b"),
        [⟨0, ⟨"L", [], some "\x7b\"slide_type\": \"b\"\x7d"⟩,
          .obj (.cons "slide_type" (.str "b") .nil)⟩])]
      ⟨"zzz", []⟩ rfl (by decide) rfl).1⟩

/-- Claim C1, counterexample: a template whose single slide declares type
`"a"` but carries a non-dict `placeholders` value, and a request for type
`"a"` with one field.  Every requested type is in the catalog, yet
generation fails with `AttributeError` during population (after the
template copy was written), refuting the claim that presence of all
requested types alone guarantees success. -/
theorem c1_generation_counterexample :
    buildSlideTypeMap
      [⟨"L", [.textBox ⟨[⟨"\x7b\x7bf\x7d\x7d", 0⟩]⟩],
        some "\x7b\"slide_type\": \"a\", \"placeholders\": \"x\"\x7d"⟩] =
    .ok [((Json.str "a"),
      [⟨0, ⟨"L", [.textBox ⟨[⟨"\x7b\x7bf\x7d\x7d", 0⟩]⟩],
          some "\x7b\"slide_type\": \"a\", \"placeholders\": \"x\"\x7d"⟩,
        .obj (.cons "slide_type" (.str "a")
          (.cons "placeholders" (.str "x") .nil))⟩])] ∧
    (∀ sp ∈ [(⟨"a", [("f", .str "v")]⟩ : SlideSpec)],
      (tmFind [((Json.str "a"),
        [⟨0, ⟨"L", [.textBox ⟨[⟨"\x7b\x7bf\x7d\x7d", 0⟩]⟩],
            some "\x7b\"slide_type\": \"a\", \"placeholders\": \"x\"\x7d"⟩,
          .obj (.cons "slide_type" (.str "a")
            (.cons "placeholders" (.str "x") .nil))⟩])]
        (.str sp.slideType)).isSome = true) ∧
    generateFromSlides
      ⟨[⟨"L", []⟩],
        [⟨"L", [.textBox ⟨[⟨"\x7b\x7bf\x7d\x7d", 0⟩]⟩],
          some "\x7b\"slide_type\": \"a\", \"placeholders\": \"x\"\x7d"⟩]⟩
      [⟨"a", [("f", .str "v")]⟩] =
    ([⟨[⟨"L", []⟩],
        [⟨"L", [.textBox ⟨[⟨"\x7b\x7bf\x7d\x7d", 0⟩]⟩],
          some "\x7b\"slide_type\": \"a\", \"placeholders\": \"x\"\x7d"⟩]⟩],
     .error (.pyErr "AttributeError: no attribute get")) :=
  ⟨rfl, by decide, rfl⟩

/-- Claim C1, amended: when the catalog builds, every requested type is
present in it, every catalog entry's metadata is population-well-formed,
every entry's declared field types accept the requested field values, and
the output deck has at least one layout, `generate_from_slides` succeeds:
spec resolution and composition both succeed pointwise and in order, the
saved presentation holds exactly one slide per requested spec, and the
i-th output slide is composed from the build resolved for the i-th spec. -/
theorem c1_generation_success (template : Pres) (specs : List SlideSpec)
    (m : TypeMap)
    (hb : buildSlideTypeMap template.slides = .ok m)
    (hall : ∀ sp ∈ specs, (tmFind m (.str sp.slideType)).isSome = true)
    (hdesc : ∀ p ∈ m, ∀ e ∈ p.2, descOkB e.metadata = true)
    (hfields : ∀ sp ∈ specs, ∀ p ∈ m, ∀ e ∈ p.2,
      fieldsOkB e.metadata sp.fields = true)
    (hlay : template.layouts ≠ []) :
    ∃ (builds : List BuildInfo) (outSlides : List Slide),
      resolveSpecs m specs = .ok builds ∧
      builds.length = specs.length ∧
      (∀ (i : Nat) (hi : i < specs.length) (hi2 : i < builds.length),
        resolveOne m (specs.get ⟨i, hi⟩) = .ok (builds.get ⟨i, hi2⟩)) ∧
      exMapM (composeOne template.layouts) builds = .ok outSlides ∧
      outSlides.length = specs.length ∧
      (∀ (i : Nat) (hi : i < builds.length) (hi2 : i < outSlides.length),
        composeOne template.layouts (builds.get ⟨i, hi⟩) =
          .ok (outSlides.get ⟨i, hi2⟩)) ∧
      generateFromSlides template specs =
        ([template, { template with slides := outSlides }],
          .ok { template with slides := outSlides }) := by
  have hne := buckets_nonempty template.slides m hb
  have h1 : ∀ sp ∈ specs, ∃ b, resolveOne m sp = .ok b := by
    intro sp hsp
    have hs := hall sp hsp
    cases hfind : tmFind m (.str sp.slideType) with
    | none =>
      rw [hfind] at hs
      exact Bool.noConfusion hs
    | some cands =>
      have hmem := tmFind_mem m _ cands hfind
      obtain ⟨e, he, hre⟩ := resolveOne_ok m sp cands hfind (hne _ hmem)
        (fun e2 he2 => hdesc _ hmem e2 he2)
      exact ⟨_, hre⟩
  obtain ⟨builds, hbuilds⟩ := exMapM_ok_exists (resolveOne m) specs h1
  have h2 : ∀ b ∈ builds, ∃ out, composeOne template.layouts b = .ok out := by
    intro b hbmem
    obtain ⟨sp, hsp, hres⟩ := exMapM_mem _ _ _ hbuilds b hbmem
    obtain ⟨cands, e, hfind, hemem, hbshape⟩ := resolveOne_shape m sp b hres
    have hmemm := tmFind_mem m _ cands hfind
    have hd : descOkB b.metadata = true := by
      rw [hbshape]
      exact hdesc _ hmemm e hemem
    have hf : fieldsOkB b.metadata b.fields = true := by
      rw [hbshape]
      exact hfields sp hsp _ hmemm e hemem
    exact composeOne_ok template.layouts b hlay hd hf
  obtain ⟨outSlides, houts⟩ := exMapM_ok_exists _ builds h2
  refine ⟨builds, outSlides, hbuilds, exMapM_length _ _ _ hbuilds,
    exMapM_get _ _ _ hbuilds, houts,
    (exMapM_length _ _ _ houts).trans (exMapM_length _ _ _ hbuilds),
    exMapM_get _ _ _ houts, ?_⟩
  rw [generateFromSlides.eq_def, hb]
  dsimp only
  rw [show resolveSpecs m specs = Except.ok builds from hbuilds]
  dsimp only
  rw [houts]

theorem c1_generation_success_witness :
    buildSlideTypeMap
      [⟨"L", [.placeholder 0 ⟨[⟨"\x7b\x7btitle\x7d\x7d", 0⟩]⟩],
        some "\x7b\"slide_type\": \"title_page\", \"placeholders\": \x7b\"title\": \x7b\"type\": \"text\"\x7d\x7d\x7d"⟩] =
      .ok [((Json.str "title_page"),
        [⟨0, ⟨"L", [.placeholder 0 ⟨[⟨"\x7b\x7btitle\x7d\x7d", 0⟩]⟩],
            some "\x7b\"slide_type\": \"title_page\", \"placeholders\": \x7b\"title\": \x7b\"type\": \"text\"\x7d\x7d\x7d"⟩,
          .obj (.cons "slide_type" (.str "title_page")
            (.cons "placeholders" (.obj (.cons "title"
              (.obj (.cons "type" (.str "text") .nil)) .nil)) .nil))⟩])] ∧
    (∀ p ∈ ([((Json.str "title_page"),
        [⟨0, ⟨"L", [.placeholder 0 ⟨[⟨"\x7b\x7btitle\x7d\x7d", 0⟩]⟩],
            some "\x7b\"slide_type\": \"title_page\", \"placeholders\": \x7b\"title\": \x7b\"type\": \"text\"\x7d\x7d\x7d"⟩,
          .obj (.cons "slide_type" (.str "title_page")
            (.cons "placeholders" (.obj (.cons "title"
              (.obj (.cons "type" (.str "text") .nil)) .nil)) .nil))⟩])] :
        TypeMap),
      ∀ e ∈ p.2, descOkB e.metadata = true) ∧
    (∃ (builds : List BuildInfo) (outSlides : List Slide),
      resolveSpecs [((Json.str "title_page"),
        [⟨0, ⟨"L", [.placeholder 0 ⟨[⟨"\x7b\x7btitle\x7d\x7d", 0⟩]⟩],
            some "\x7b\"slide_type\": \"title_page\", \"placeholders\": \x7b\"title\": \x7b\"type\": \"text\"\x7d\x7d\x7d"⟩,
          .obj (.cons "slide_type" (.str "title_page")
            (.cons "placeholders" (.obj (.cons "title"
              (.obj (.cons "type" (.str "text") .nil)) .nil)) .nil))⟩])]
        [⟨"title_page", [("title", .str "Q4")]⟩] = .ok builds ∧
      builds.length = 1 ∧
      exMapM (composeOne [⟨"L", [⟨0, ⟨[⟨"\x7b\x7btitle\x7d\x7d", 0⟩]⟩⟩]⟩]) builds =
        .ok outSlides ∧
      outSlides.length = 1 ∧
      generateFromSlides
        ⟨[⟨"L", [⟨0, ⟨[⟨"\x7b\x7btitle\x7d\x7d", 0⟩]⟩⟩]⟩],
          [⟨"L", [.placeholder 0 ⟨[⟨"\x7b\x7btitle\x7d\x7d", 0⟩]⟩],
            some "\x7b\"slide_type\": \"title_page\", \"placeholders\": \x7b\"title\": \x7b\"type\": \"text\"\x7d\x7d\x7d"⟩]⟩
        [⟨"title_page", [("title", .str "Q4")]⟩] =
        ([⟨[⟨"L", [⟨0, ⟨[⟨"\x7b\x7btitle\x7d\x7d", 0⟩]⟩⟩]⟩],
            [⟨"L", [.placeholder 0 ⟨[⟨"\x7b\x7btitle\x7d\x7d", 0⟩]⟩],
              some "\x7b\"slide_type\": \"title_page\", \"placeholders\": \x7b\"title\": \x7b\"type\": \"text\"\x7d\x7d\x7d"⟩]⟩,
          ⟨[⟨"L", [⟨0, ⟨[⟨"\x7b\x7btitle\x7d\x7d", 0⟩]⟩⟩]⟩], outSlides⟩],
         .ok ⟨[⟨"L", [⟨0, ⟨[⟨"\x7b\x7btitle\x7d\x7d", 0⟩]⟩⟩]⟩], outSlides⟩)) := by
  refine ⟨rfl, by decide, ?_⟩
  obtain ⟨builds, outSlides, hres, hlen1, -, hcomp, hlen2, -, hgen⟩ :=
    c1_generation_success
      ⟨[⟨"L", [⟨0, ⟨[⟨"\x7b\x7btitle\x7d\x7d", 0⟩]⟩⟩]⟩],
        [⟨"L", [.placeholder 0 ⟨[⟨"\x7b\x7btitle\x7d\x7d", 0⟩]⟩],
          some "\x7b\"slide_type\": \"title_page\", \"placeholders\": \x7b\"title\": \x7b\"type\": \"text\"\x7d\x7d\x7d"⟩]⟩
      [⟨"title_page", [("title", .str "Q4")]⟩]
      [((Json.str "title_page"),
        [⟨0, ⟨"L", [.placeholder 0 ⟨[⟨"\x7b\x7btitle\x7d\x7d", 0⟩]⟩],
            some "\x7b\"slide_type\": \"title_page\", \"placeholders\": \x7b\"title\": \x7b\"type\": \"text\"\x7d\x7d\x7d"⟩,
          .obj (.cons "slide_type" (.str "title_page")
            (.cons "placeholders" (.obj (.cons "title"
              (.obj (.cons "type" (.str "text") .nil)) .nil)) .nil))⟩])]
      rfl (by decide) (by decide) (by decide) (by decide)
  exact ⟨builds, outSlides, hres, hlen1, hcomp, hlen2, hgen⟩
